import Mathlib

/-
Verification of the privacy_query_engine repository.

Shallow embedding conventions:
- Python floats are modelled as rationals (exact arithmetic).
- Wall-clock timestamps are rationals measured in days, so the reset
  periods of the budget manager are 1, 7 and 30.
- SHA-256 digests are modelled by an abstract digest function passed as a
  parameter; in the audit module the digest is additionally assumed
  injective where tamper detection is proved (collision freeness).
- Python dictionaries are modelled as association lists with
  first-match lookup, insertion at the end, and in-place replacement.
-/

namespace PQE

/-- First-match lookup in an association list, mirroring a Python dict read. -/
def alistGet {κ α : Type} [DecidableEq κ] : List (κ × α) → κ → Option α
  | [], _ => none
  | p :: t, k => if p.1 = k then some p.2 else alistGet t k

/-- Membership test for a key, mirroring the Python `in` operator on a dict. -/
def alistHas {κ α : Type} [DecidableEq κ] : List (κ × α) → κ → Bool
  | [], _ => false
  | p :: t, k => p.1 = k || alistHas t k

/-- Replace the value stored under an existing key, keeping positions. -/
def alistReplace {κ α : Type} [DecidableEq κ] : List (κ × α) → κ → α → List (κ × α)
  | [], _, _ => []
  | p :: t, k, v => (if p.1 = k then (p.1, v) else p) :: alistReplace t k v

/-- Dict write: replace the value of an existing key in place, otherwise
append the new binding at the end (Python dicts keep insertion order). -/
def alistSet {κ α : Type} [DecidableEq κ] (l : List (κ × α)) (k : κ) (v : α) :
    List (κ × α) :=
  if alistHas l k then alistReplace l k v else l ++ [(k, v)]

namespace Budget

/-- src/main/budget/models.py, class ResetFrequency. -/
inductive ResetFrequency
  | daily
  | weekly
  | monthly
  | never
deriving DecidableEq, Repr

/-- src/main/budget/models.py, class ResetSchedule. -/
structure ResetSchedule where
  frequency : ResetFrequency := .daily
  reset_time : String := "00:00:00"
  timezone : String := "UTC"
deriving DecidableEq, Repr

/-- src/main/budget/models.py, class BudgetAccount (floats as rationals,
datetimes as rational day counts). -/
structure BudgetAccount where
  user_id : String
  total_budget : ℚ
  consumed_budget : ℚ := 0
  reset_schedule : ResetSchedule := {}
  last_reset : Option ℚ := none
  role : String := "default"
  created_at : ℚ := 0
  updated_at : ℚ := 0
deriving DecidableEq, Repr

/-- BudgetAccount.remaining_budget: `max(0.0, total_budget - consumed_budget)`. -/
def BudgetAccount.remaining_budget (a : BudgetAccount) : ℚ :=
  max 0 (a.total_budget - a.consumed_budget)

/-- BudgetAccount.is_exhausted: `remaining_budget <= 0`. -/
def BudgetAccount.is_exhausted (a : BudgetAccount) : Bool :=
  decide (a.remaining_budget ≤ 0)

/-- src/main/budget/models.py, class BudgetTransaction. -/
structure BudgetTransaction where
  transaction_id : String
  user_id : String
  query_id : String
  epsilon_consumed : ℚ
  timestamp : ℚ := 0
  query_hash : String := ""
  privacy_mechanism : String := "laplace"
  description : String := ""
deriving DecidableEq, Repr

/-- src/main/budget/models.py, class BudgetCheckResult.  The formatted
float text of the Python message is elided; only the fixed message stem is
kept. -/
structure BudgetCheckResult where
  allowed : Bool
  remaining_budget : ℚ
  requested_budget : ℚ
  message : String := ""
deriving DecidableEq, Repr

/-- Budget status dictionary returned by get_budget_status (the fields the
claims mention). -/
structure BudgetStatus where
  user_id : String
  total_budget : ℚ
  consumed_budget : ℚ
  remaining_budget : ℚ
  role : String
  last_reset : Option ℚ
  is_exhausted : Bool
deriving DecidableEq, Repr

/-- src/main/budget/manager.py, class PrivacyBudgetManager: the two dicts
`_accounts` and `_transactions` plus the constructor configuration.  The
`fresh` counter models the uuid4 source used for transaction ids. -/
structure Manager where
  accounts : List (String × BudgetAccount) := []
  transactions : List (String × List BudgetTransaction) := []
  default_budget : ℚ := 1
  role_budgets : List (String × ℚ) := []
  default_reset_schedule : ResetSchedule := {}
  fresh : ℕ := 0
deriving DecidableEq, Repr

/-- PrivacyBudgetManager.DEFAULT_ROLE_BUDGETS. -/
def defaultRoleBudgets : List (String × ℚ) :=
  [("admin", 10), ("analyst", 5), ("default", 1)]

/-- PrivacyBudgetManager.__init__: copy the supplied role budgets or the
class default, then force the "default" role to the supplied default
budget. -/
def Manager.init (default_budget : ℚ := 1)
    (role_budgets : Option (List (String × ℚ)) := none)
    (default_reset_schedule : Option ResetSchedule := none) : Manager :=
  let rb := role_budgets.getD defaultRoleBudgets
  { default_budget := default_budget
    role_budgets := alistSet rb "default" default_budget
    default_reset_schedule := default_reset_schedule.getD {} }

/-- The BudgetAccount object get_or_create_account builds for an unknown
user: the role budget if the role is known, else the default budget, and a
copy of the default reset schedule. -/
def Manager.freshAccount (m : Manager) (now : ℚ) (user_id : String)
    (role : String) (total_budget : Option ℚ) : BudgetAccount :=
  { user_id := user_id
    total_budget := total_budget.getD ((alistGet m.role_budgets role).getD m.default_budget)
    role := role
    reset_schedule :=
      { frequency := m.default_reset_schedule.frequency
        reset_time := m.default_reset_schedule.reset_time
        timezone := m.default_reset_schedule.timezone }
    created_at := now
    updated_at := now }

/-- PrivacyBudgetManager.get_or_create_account. -/
def Manager.get_or_create_account (m : Manager) (now : ℚ) (user_id : String)
    (role : String := "default") (total_budget : Option ℚ := none) :
    BudgetAccount × Manager :=
  match alistGet m.accounts user_id with
  | some a => (a, m)
  | none =>
    (m.freshAccount now user_id role total_budget,
     { m with
         accounts := alistSet m.accounts user_id (m.freshAccount now user_id role total_budget)
         transactions := alistSet m.transactions user_id [] })

/-- Reset period of a frequency, in days (timedelta(days=1), weeks=1,
days=30); NEVER has no period. -/
def period? : ResetFrequency → Option ℚ
  | .daily => some 1
  | .weekly => some 7
  | .monthly => some 30
  | .never => none

/-- PrivacyBudgetManager._check_and_reset_if_needed, as a pure account
transformer. -/
def checkAndResetIfNeeded (a : BudgetAccount) (now : ℚ) : BudgetAccount :=
  match period? a.reset_schedule.frequency with
  | none => a
  | some p =>
    match a.last_reset with
    | none => { a with last_reset := some now }
    | some lr =>
      if p ≤ now - lr then
        { a with consumed_budget := 0, last_reset := some now, updated_at := now }
      else a

/-- Store a (mutated in place, in Python) account object back into the
dict entry it was fetched from. -/
def Manager.store (m : Manager) (user_id : String) (a : BudgetAccount) : Manager :=
  { m with accounts := alistSet m.accounts user_id a }

/-- PrivacyBudgetManager.check_budget. -/
def Manager.check_budget (m : Manager) (now : ℚ) (user_id : String) (ε : ℚ) :
    BudgetCheckResult × Manager :=
  let (a, m₁) := m.get_or_create_account now user_id
  let a := checkAndResetIfNeeded a now
  let m₂ := m₁.store user_id a
  let remaining := a.remaining_budget
  let allowed := decide (ε ≤ remaining)
  ({ allowed := allowed
     remaining_budget := remaining
     requested_budget := ε
     message := if allowed then "Budget check passed." else "Insufficient budget." },
   m₂)

/-- PrivacyBudgetManager._hash_query: empty input gives "", otherwise the
digest of the whitespace-normalized lowercased SQL truncated to 16
characters.  `H` stands for the sha256 hexdigest. -/
def hashQuery (H : String → String) (sql : String) : String :=
  if sql = "" then ""
  else
    let normalized := String.intercalate " "
      ((sql.toLower.split Char.isWhitespace).filter (fun w => w ≠ ""))
    (H normalized).take 16

/-- The query_hash argument of the transaction record:
`self._hash_query(query_sql) if query_sql else ""` (None and the empty
string are both falsy). -/
def queryHashOfSql (H : String → String) : Option String → String
  | some s => if s = "" then "" else hashQuery H s
  | none => ""

/-- PrivacyBudgetManager.consume_budget. -/
def Manager.consume_budget (H : String → String) (m : Manager) (now : ℚ)
    (user_id : String) (ε : ℚ) (query_id : Option String := none)
    (query_sql : Option String := none) (privacy_mechanism : String := "laplace") :
    Bool × Manager :=
  let (a, m₁) := m.get_or_create_account now user_id
  let a := checkAndResetIfNeeded a now
  let m₂ := m₁.store user_id a
  if a.remaining_budget < ε then (false, m₂)
  else
    let a := { a with consumed_budget := a.consumed_budget + ε, updated_at := now }
    let m₃ := m₂.store user_id a
    let txn : BudgetTransaction :=
      { transaction_id := "uuid-" ++ toString m₃.fresh
        user_id := user_id
        query_id := query_id.getD ("uuid-" ++ toString (m₃.fresh + 1))
        epsilon_consumed := ε
        timestamp := now
        query_hash := queryHashOfSql H query_sql
        privacy_mechanism := privacy_mechanism
        description := "Budget consumed" }
    let txns := (alistGet m₃.transactions user_id).getD []
    (true, { m₃ with
               transactions := alistSet m₃.transactions user_id (txns ++ [txn])
               fresh := m₃.fresh + 2 })

/-- PrivacyBudgetManager.reset_budget. -/
def Manager.reset_budget (m : Manager) (now : ℚ) (user_id : String) : Manager :=
  let (a, m₁) := m.get_or_create_account now user_id
  m₁.store user_id { a with consumed_budget := 0, last_reset := some now, updated_at := now }

/-- PrivacyBudgetManager.set_budget. -/
def Manager.set_budget (m : Manager) (now : ℚ) (user_id : String)
    (total_budget : ℚ) : Manager :=
  let (a, m₁) := m.get_or_create_account now user_id
  m₁.store user_id { a with total_budget := total_budget, updated_at := now }

/-- PrivacyBudgetManager.set_reset_schedule. -/
def Manager.set_reset_schedule (m : Manager) (now : ℚ) (user_id : String)
    (schedule : ResetSchedule) : Manager :=
  let (a, m₁) := m.get_or_create_account now user_id
  m₁.store user_id { a with reset_schedule := schedule, updated_at := now }

/-- PrivacyBudgetManager.get_budget_status. -/
def Manager.get_budget_status (m : Manager) (now : ℚ) (user_id : String) :
    BudgetStatus × Manager :=
  let (a, m₁) := m.get_or_create_account now user_id
  let a := checkAndResetIfNeeded a now
  let m₂ := m₁.store user_id a
  ({ user_id := user_id
     total_budget := a.total_budget
     consumed_budget := a.consumed_budget
     remaining_budget := a.remaining_budget
     role := a.role
     last_reset := a.last_reset
     is_exhausted := a.is_exhausted },
   m₂)

/-- Transaction history of one user (empty when the user is unknown). -/
def Manager.txnsOf (m : Manager) (user_id : String) : List BudgetTransaction :=
  (alistGet m.transactions user_id).getD []

/-- The account state check_budget and consume_budget observe after the
fetch-or-create and reset-if-due steps. -/
def Manager.postResetAccount (m : Manager) (now : ℚ) (user_id : String) :
    BudgetAccount :=
  checkAndResetIfNeeded (m.get_or_create_account now user_id).1 now

/-- Boolean rendering of the condition under which
_check_and_reset_if_needed zeroes the consumed budget. -/
def resetDue (a : BudgetAccount) (now : ℚ) : Bool :=
  match period? a.reset_schedule.frequency with
  | none => false
  | some p =>
    match a.last_reset with
    | none => false
    | some lr => decide (p ≤ now - lr)

/-- The transaction record the success branch of consume_budget appends
(the fresh counter of the manager supplies the uuid4 values). -/
def Manager.consumedTxn (H : String → String) (m : Manager) (now : ℚ)
    (user_id : String) (ε : ℚ) (query_id query_sql : Option String)
    (privacy_mechanism : String) : BudgetTransaction :=
  { transaction_id := "uuid-" ++ toString m.fresh
    user_id := user_id
    query_id := query_id.getD ("uuid-" ++ toString (m.fresh + 1))
    epsilon_consumed := ε
    timestamp := now
    query_hash := queryHashOfSql H query_sql
    privacy_mechanism := privacy_mechanism
    description := "Budget consumed" }

/-- The account c9mgr stores for user "u": the whole budget of 1 was
consumed, then set_budget lowered the total to 1/2. -/
def c9acct : BudgetAccount :=
  { user_id := "u"
    total_budget := 1/2
    consumed_budget := 1
    reset_schedule := {}
    last_reset := some 0
    role := "default"
    created_at := 0
    updated_at := 0 }

/-- Concrete scenario for the C9 witness: the manager state reached from
Manager.init 1 by consume_budget of the whole budget followed by
set_budget to 1/2. -/
def c9mgr : Manager :=
  { accounts := [("u", c9acct)]
    transactions := [("u", [])]
    default_budget := 1
    role_budgets := [("admin", 10), ("analyst", 5), ("default", 1)]
    default_reset_schedule := {}
    fresh := 2 }

/-- The public budget-manager operations of C2, each carrying the wall
clock instant at which it runs (scheduled resets fire inside check and
consume through reset-if-due). -/
inductive Op where
  | check (now : ℚ) (user : String) (ε : ℚ)
  | consume (now : ℚ) (user : String) (ε : ℚ) (query_id query_sql : Option String)
      (mech : String)
  | resetOp (now : ℚ) (user : String)
  | setBudget (now : ℚ) (user : String) (b : ℚ)
  | setSchedule (now : ℚ) (user : String) (s : ResetSchedule)
  | create (now : ℚ) (user : String) (role : String) (tb : Option ℚ)

/-- State transition of one operation. -/
def Manager.applyOp (H : String → String) (m : Manager) : Op → Manager
  | .check now u ε => (m.check_budget now u ε).2
  | .consume now u ε qid qsql mech => (m.consume_budget H now u ε qid qsql mech).2
  | .resetOp now u => m.reset_budget now u
  | .setBudget now u b => m.set_budget now u b
  | .setSchedule now u sc => m.set_reset_schedule now u sc
  | .create now u role tb => (m.get_or_create_account now u role tb).2

/-- Side conditions under which the amended C2 invariant is preserved:
consumed ε values are non-negative, set_budget never drops the total below
the consumed amount of an existing account, and explicit creation budgets
are non-negative. -/
def ValidOp (m : Manager) : Op → Prop
  | .consume _ _ ε _ _ _ => 0 ≤ ε
  | .setBudget _ u b =>
      0 ≤ b ∧ ∀ a, alistGet m.accounts u = some a → a.consumed_budget ≤ b
  | .create _ _ _ tb => ∀ q, tb = some q → 0 ≤ q
  | _ => True

/-- Manager states reachable from a constructor call with non-negative
configured budgets through valid operations. -/
inductive ReachableM (H : String → String) : Manager → Prop
  | init (db : ℚ) (rb : Option (List (String × ℚ))) (sched : Option ResetSchedule)
      (hdb : 0 ≤ db) (hrb : ∀ p ∈ rb.getD defaultRoleBudgets, 0 ≤ p.2) :
      ReachableM H (Manager.init db rb sched)
  | step (m : Manager) (op : Op) (hm : ReachableM H m) (hop : ValidOp m op) :
      ReachableM H (Manager.applyOp H m op)

/-- The per-account part of the budget invariant. -/
def AccountInv (a : BudgetAccount) : Prop :=
  0 ≤ a.consumed_budget ∧ a.consumed_budget ≤ a.total_budget

/-- The whole-state budget invariant: configured budgets non-negative and
every account within bounds. -/
def ManagerInv (m : Manager) : Prop :=
  (0 ≤ m.default_budget ∧ ∀ p ∈ m.role_budgets, 0 ≤ p.2) ∧
  ∀ p ∈ m.accounts, AccountInv p.2

/-- Concrete state for the C2 witness: one successful consume on a fresh
default manager. -/
def c2mgr : Manager :=
  Manager.applyOp (fun s => s) (Manager.init 1 none none)
    (Op.consume 0 "u" 1 none none "laplace")

/-- The invariant asserted by C2, as an executable check over a manager
state. -/
def claimedInvariantHolds (m : Manager) : Bool :=
  m.accounts.all fun p =>
    decide (0 ≤ p.2.consumed_budget) &&
    decide (p.2.consumed_budget ≤ p.2.total_budget) &&
    decide (p.2.remaining_budget = p.2.total_budget - p.2.consumed_budget)

/-- The state after consuming the whole budget of 1 and then calling
set_budget with 1/2: total_budget drops below consumed_budget. -/
def c2seq : Manager :=
  Manager.applyOp (fun s => s) c2mgr (Op.setBudget 0 "u" (1/2))

end Budget

namespace Audit

/-- src/main/audit/models.py, class AuditLogEntry, over an abstract digest
type χ.  The datetime, the two optional sub-event dictionaries and the
metadata dict are abstracted to their canonical sort-keys JSON renderings
(strings), which the serialization embeds injectively. -/
structure AuditLogEntry (χ : Type) where
  entry_id : String
  event_type : String
  timestamp : String
  user_id : String
  query_event : Option String := none
  privacy_event : Option String := none
  rejection_reason : Option String := none
  metadata : String := ""
  previous_hash : Option χ := none
  entry_hash : Option χ := none
deriving DecidableEq

/-- The content dictionary hashed by AuditLogEntry._calculate_hash: every
field of the entry except entry_hash. -/
structure EntryContent (χ : Type) where
  entry_id : String
  event_type : String
  timestamp : String
  user_id : String
  query_event : Option String
  privacy_event : Option String
  rejection_reason : Option String
  metadata : String
  previous_hash : Option χ
deriving DecidableEq

/-- The dictionary built inside _calculate_hash. -/
def AuditLogEntry.content {χ : Type} (e : AuditLogEntry χ) : EntryContent χ :=
  { entry_id := e.entry_id
    event_type := e.event_type
    timestamp := e.timestamp
    user_id := e.user_id
    query_event := e.query_event
    privacy_event := e.privacy_event
    rejection_reason := e.rejection_reason
    metadata := e.metadata
    previous_hash := e.previous_hash }

/-- AuditLogEntry._calculate_hash: digest of the canonical rendering,
with the digest function H abstracting sha256 of the sort-keys JSON. -/
def calcHash {χ : Type} (H : EntryContent χ → χ) (e : AuditLogEntry χ) : χ :=
  H e.content

/-- AuditLogEntry.verify_integrity: the stored entry_hash equals the
recomputed one. -/
def verifyIntegrity {χ : Type} [DecidableEq χ] (H : EntryContent χ → χ)
    (e : AuditLogEntry χ) : Bool :=
  decide (e.entry_hash = some (calcHash H e))

/-- src/main/audit/logger.py, class AuditLogger: the entry list, the bound
and the running last hash. -/
structure Logger (χ : Type) where
  entries : List (AuditLogEntry χ) := []
  max_entries : ℕ := 10000
  last_hash : Option χ := none

/-- Python `l[-m:]` for a non-negative int m: the whole list when m = 0,
otherwise the last m elements. -/
def pyTail {α : Type} (l : List α) (m : ℕ) : List α :=
  if m = 0 then l else l.drop (l.length - m)

/-- The entry after `entry.previous_hash = self._last_hash`. -/
def linkedEntry {χ : Type} (st : Logger χ) (e : AuditLogEntry χ) :
    AuditLogEntry χ :=
  { e with previous_hash := st.last_hash }

/-- The entry after `entry.entry_hash = entry._calculate_hash()`. -/
def sealedEntry {χ : Type} (H : EntryContent χ → χ) (st : Logger χ)
    (e : AuditLogEntry χ) : AuditLogEntry χ :=
  { linkedEntry st e with entry_hash := some (calcHash H (linkedEntry st e)) }

/-- AuditLogger._add_entry: link to the previous hash, recompute the entry
hash, append, and truncate from the head beyond max_entries. -/
def Logger.addEntry {χ : Type} (H : EntryContent χ → χ) (st : Logger χ)
    (e : AuditLogEntry χ) : Logger χ :=
  let entries := st.entries ++ [sealedEntry H st e]
  { st with
      entries :=
        if st.max_entries < entries.length then pyTail entries st.max_entries
        else entries
      last_hash := (sealedEntry H st e).entry_hash }

/-- The loop body of verify_chain_integrity from index 1 on: each entry
verifies and links to its predecessor. -/
def chainFrom {χ : Type} [DecidableEq χ] (H : EntryContent χ → χ)
    (prev : AuditLogEntry χ) : List (AuditLogEntry χ) → Bool
  | [] => true
  | c :: rest =>
      verifyIntegrity H c && decide (c.previous_hash = prev.entry_hash) &&
        chainFrom H c rest

/-- The body of verify_chain_integrity over an entry list: the head
verifies, then the loop from index 1. -/
def verifyList {χ : Type} [DecidableEq χ] (H : EntryContent χ → χ) :
    List (AuditLogEntry χ) → Bool
  | [] => true
  | e :: rest => verifyIntegrity H e && chainFrom H e rest

/-- AuditLogger.verify_chain_integrity. -/
def Logger.verify_chain_integrity {χ : Type} [DecidableEq χ]
    (H : EntryContent χ → χ) (st : Logger χ) : Bool :=
  verifyList H st.entries

/-- Logger states produced solely by append operations from an empty log
(every log_* method funnels through _add_entry). -/
inductive ReachableL {χ : Type} (H : EntryContent χ → χ) (maxE : ℕ) :
    Logger χ → Prop
  | init : ReachableL H maxE { entries := [], max_entries := maxE, last_hash := none }
  | step (st : Logger χ) (e : AuditLogEntry χ) (h : ReachableL H maxE st) :
      ReachableL H maxE (Logger.addEntry H st e)

/-- e2 agrees with e except on exactly one (altered) field. -/
def DiffersInOneField {χ : Type} (e e2 : AuditLogEntry χ) : Prop :=
  (∃ v, e2 = { e with entry_id := v } ∧ v ≠ e.entry_id) ∨
  (∃ v, e2 = { e with event_type := v } ∧ v ≠ e.event_type) ∨
  (∃ v, e2 = { e with timestamp := v } ∧ v ≠ e.timestamp) ∨
  (∃ v, e2 = { e with user_id := v } ∧ v ≠ e.user_id) ∨
  (∃ v, e2 = { e with query_event := v } ∧ v ≠ e.query_event) ∨
  (∃ v, e2 = { e with privacy_event := v } ∧ v ≠ e.privacy_event) ∨
  (∃ v, e2 = { e with rejection_reason := v } ∧ v ≠ e.rejection_reason) ∨
  (∃ v, e2 = { e with metadata := v } ∧ v ≠ e.metadata) ∨
  (∃ v, e2 = { e with previous_hash := v } ∧ v ≠ e.previous_hash) ∨
  (∃ v, e2 = { e with entry_hash := v } ∧ v ≠ e.entry_hash)

/-- The linkage relation of the hash chain. -/
def Linked {χ : Type} (a b : AuditLogEntry χ) : Prop :=
  b.previous_hash = a.entry_hash

/-- Invariant of reachable logger states: every retained entry verifies,
consecutive retained entries are linked, and last_hash is the hash of the
newest retained entry. -/
def LoggerInv {χ : Type} [DecidableEq χ] (H : EntryContent χ → χ)
    (st : Logger χ) : Prop :=
  (∀ e ∈ st.entries, verifyIntegrity H e = true) ∧
  List.Chain' Linked st.entries ∧
  ∀ e, st.entries.getLast? = some e → st.last_hash = e.entry_hash

/-- An injective encoding of character lists into ℕ, used to build a
concrete collision-free digest for the C3 witness. -/
def encCharList : List Char → ℕ
  | [] => 0
  | c :: t => Nat.pair (c.toNat + 1) (encCharList t)

/-- Injective encoding of strings. -/
def encString (s : String) : ℕ := encCharList s.data

/-- Injective encoding of optional strings. -/
def encOptString : Option String → ℕ
  | none => 0
  | some s => encString s + 1

/-- Injective encoding of optional digests. -/
def encOptNat : Option ℕ → ℕ
  | none => 0
  | some n => n + 1

/-- A concrete collision-free digest over canonical contents, pairing the
encodings of the nine content fields. -/
def encContent (c : EntryContent ℕ) : ℕ :=
  Nat.pair (encString c.entry_id) (Nat.pair (encString c.event_type)
    (Nat.pair (encString c.timestamp) (Nat.pair (encString c.user_id)
      (Nat.pair (encOptString c.query_event) (Nat.pair (encOptString c.privacy_event)
        (Nat.pair (encOptString c.rejection_reason) (Nat.pair (encString c.metadata)
          (encOptNat c.previous_hash))))))))

/-- First appended entry of the C3 witness log. -/
def c3entryA : AuditLogEntry ℕ :=
  { entry_id := "a1", event_type := "query_submitted", timestamp := "t1",
    user_id := "alice" }

/-- Second appended entry of the C3 witness log. -/
def c3entryB : AuditLogEntry ℕ :=
  { entry_id := "b2", event_type := "privacy_applied", timestamp := "t2",
    user_id := "alice" }

/-- The C3 witness log: two appends on an empty bounded logger. -/
def c3log : Logger ℕ :=
  Logger.addEntry encContent (Logger.addEntry encContent
    { entries := [], max_entries := 10, last_hash := none } c3entryA) c3entryB

def c3len : 0 < c3log.entries.length := by decide

/-- The first retained entry with its user_id field altered. -/
def c3tampered : AuditLogEntry ℕ :=
  { c3log.entries.get ⟨0, c3len⟩ with user_id := "mallory" }

end Audit

namespace Deid

/-- Python values stored in data rows (src/main/privacy/deid/methods.py
works on lists of dicts). -/
inductive PyVal where
  | vStr (s : String)
  | vInt (n : ℤ)
  | vNone
  | vBool (b : Bool)
deriving DecidableEq, Repr

/-- A data row: a Python dict from column names to values. -/
abbrev Row := List (String × PyVal)

/-- The suppression sentinel "*SUPPRESSED*". -/
def suppressed : PyVal := .vStr "*SUPPRESSED*"

/-- KAnonymizer._get_equivalence_key: `tuple(row.get(qi, None))` — a
missing quasi-identifier contributes None, like a stored None value. -/
def equivalenceKey (qis : List String) (r : Row) : List PyVal :=
  qis.map (fun qi => (alistGet r qi).getD .vNone)

/-- KAnonymizer._compute_equivalence_classes: a dict from equivalence key
to the list of row indices carrying it, built by iteration. -/
def computeEquivalenceClasses (data : List Row) (qis : List String) :
    List (List PyVal × List ℕ) :=
  data.enum.foldl
    (fun classes p =>
      alistSet classes (equivalenceKey qis p.2)
        ((alistGet classes (equivalenceKey qis p.2)).getD [] ++ [p.1]))
    []

/-- KAnonymizer.check_k_anonymity: every equivalence class has at least k
rows. -/
def check_k_anonymity (k : ℕ) (data : List Row) (qis : List String) : Bool :=
  (computeEquivalenceClasses data qis).all (fun c => k ≤ c.2.length)

/-- The generalization loop of KAnonymizer.anonymize: for each quasi
identifier with a configured rule, rewrite it in every row that has it. -/
def applyGenRules (rules : List (String × (PyVal → PyVal))) (qis : List String)
    (rows : List Row) : List Row :=
  qis.foldl
    (fun rows qi =>
      match alistGet rules qi with
      | none => rows
      | some f =>
          rows.map (fun r =>
            if alistHas r qi then alistReplace r qi (f ((alistGet r qi).getD .vNone))
            else r))
    rows

/-- The suppression loop: every present quasi-identifier of the row is
replaced by the sentinel. -/
def suppressRow (qis : List String) (r : Row) : Row :=
  qis.foldl (fun r qi => if alistHas r qi then alistReplace r qi suppressed else r) r

/-- KAnonymizer.anonymize: copy the rows, apply generalization rules,
compute equivalence classes, and suppress the quasi-identifiers of every
row in a class smaller than k. -/
def anonymize (k : ℕ) (data : List Row) (qis : List String)
    (rules : List (String × (PyVal → PyVal)) := []) : List Row :=
  if data = [] then data
  else
    let result := (data.map (fun r => r))
    let result := applyGenRules rules qis result
    let classes := computeEquivalenceClasses result qis
    let smallKeys := (classes.filter (fun c => c.2.length < k)).map (fun c => c.1)
    result.map (fun r =>
      if equivalenceKey qis r ∈ smallKeys then suppressRow qis r else r)

/-- The per-row effect of the generalization loop. -/
def genRow (rules : List (String × (PyVal → PyVal))) (qis : List String)
    (r : Row) : Row :=
  qis.foldl
    (fun r qi =>
      match alistGet rules qi with
      | none => r
      | some f =>
          if alistHas r qi then alistReplace r qi (f ((alistGet r qi).getD .vNone))
          else r)
    r

/-- One step of the class-building fold. -/
def classPush (qis : List String) (classes : List (List PyVal × List ℕ))
    (p : ℕ × Row) : List (List PyVal × List ℕ) :=
  alistSet classes (equivalenceKey qis p.2)
    ((alistGet classes (equivalenceKey qis p.2)).getD [] ++ [p.1])

/-- Quasi-identifiers of the concrete k-anonymity witness. -/
def c4qis : List String := ["age", "zip"]

/-- Concrete witness data: rows 0 and 1 share quasi-identifier values,
row 2 is alone in its equivalence class. -/
def c4data : List Row :=
  [[("name", .vStr "alice"), ("age", .vInt 30), ("zip", .vStr "100")],
   [("name", .vStr "bob"), ("age", .vInt 30), ("zip", .vStr "100")],
   [("name", .vStr "carol"), ("age", .vInt 40), ("zip", .vStr "200")]]

end Deid

namespace Policy

/-- src/main/policy/config.py, enum DataClassification. -/
inductive DataClassification where
  | publicLevel
  | internalLevel
  | confidentialLevel
  | restrictedLevel
deriving DecidableEq, Repr

/-- The `.value` string of a classification level, the key of the
classification_rules configuration dict. -/
def DataClassification.value : DataClassification → String
  | .publicLevel => "public"
  | .internalLevel => "internal"
  | .confidentialLevel => "confidential"
  | .restrictedLevel => "restricted"

/-- The index of a level in `classification_order` of
PolicyEngine._get_highest_classification. -/
def DataClassification.order : DataClassification → ℕ
  | .publicLevel => 0
  | .internalLevel => 1
  | .confidentialLevel => 2
  | .restrictedLevel => 3

/-- src/main/policy/config.py, dataclass RoleConfig. -/
structure RoleConfig where
  name : String
  epsilon : ℚ := 1
  delta : ℚ := 1 / 100000
  max_queries_per_day : ℕ := 1000
  allowed_tables : List String := []
  denied_tables : List String := []
  allowed_columns : List String := []
  denied_columns : List String := []
deriving DecidableEq, Repr

/-- The params dict of a PolicyDecision: the keys the engine and the
driver ever read, each optional because `in`/`get` tests are performed on
the dict. -/
structure DecisionParams where
  epsilon : Option ℚ := none
  delta : Option ℚ := none
  mechanism : Option String := none
  sensitivity : Option ℚ := none
  method : Option String := none
  columns : Option (List String) := none
deriving DecidableEq, Repr

/-- src/main/policy/config.py, dataclass ColumnPattern.  `matches` stands
for the method `matches`, i.e. `re.match(pattern, column_name,
re.IGNORECASE)`, kept abstract (`matches` is reserved in Lean). -/
structure ColumnPattern where
  pattern : String
  classification : DataClassification
  privacy_method : String
  params : DecisionParams := {}
  matchesCol : String → Bool

/-- src/main/policy/config.py, dataclass TablePolicy (column_policies is
never read by the engine). -/
structure TablePolicy where
  table_name : String
  classification : DataClassification
  default_epsilon : ℚ := 1
deriving DecidableEq, Repr

/-- The observable content of a ConfigManager: the values its getters
return to the PolicyEngine.  classification_rules maps a level value to
the optional "epsilon" entry of that level (`some none` = level present
without an epsilon key, `none` = level absent). -/
structure Config where
  sensitive_columns : List String := []
  default_epsilon : ℚ := 1
  roles : List (String × RoleConfig) := []
  column_patterns : List ColumnPattern := []
  table_policies : List (String × TablePolicy) := []
  classification_rules : List (String × Option ℚ) := []

/-- ConfigManager.DEFAULT_CONFIG, the configuration loaded when no config
file is given. -/
def defaultConfig : Config :=
  { sensitive_columns := ["name", "email", "phone", "id_card", "ssn"]
    default_epsilon := 1
    classification_rules :=
      [("public", some 2), ("internal", some 1),
       ("confidential", some (1 / 2)), ("restricted", some (1 / 10))] }

/-- ConfigManager.get_classification_rules(...).get("epsilon", eps): a
missing level falls back to the dict literal with epsilon 1.0, a level
without an epsilon entry falls back to the current eps. -/
def Config.classEpsilon (cfg : Config) (c : DataClassification) (eps : ℚ) : ℚ :=
  match alistGet cfg.classification_rules c.value with
  | none => 1
  | some none => eps
  | some (some e) => e

/-- src/main/policy/engine.py, dataclass PolicyDecision. -/
structure PolicyDecision where
  action : String
  params : DecisionParams := {}
  matched_rule : Option String := none
  reason : String := ""
  classification : Option DataClassification := none
  role_applied : Option String := none
deriving DecidableEq, Repr

/-- src/main/analyzer/models.py JoinInfo (join_conditions and the
cardinality estimate are never read by the engine or driver). -/
structure JoinInfo where
  join_type : String
  tables : List String := []
deriving DecidableEq, Repr

/-- src/main/analyzer/models.py AnalysisResult, restricted to the fields
the policy engine and driver read.  Subqueries and window functions are
kept as lists of their SQL/function-name strings: only their emptiness and
length are ever observed. -/
structure AnalysisResult where
  tables : List String := []
  select_columns : List String := []
  aggregations : List String := []
  is_aggregate_query : Bool := false
  joins : List JoinInfo := []
  subqueries : List String := []
  window_functions : List String := []
  original_sql : String := ""
  is_valid : Bool := true
  error_message : Option String := none
deriving DecidableEq, Repr

/-- Python str.lower, modelled character-wise (String.toLower computes
the same list of characters but is opaque to kernel reduction). -/
def pyLower (s : String) : String := String.mk (s.data.map Char.toLower)

/-- PolicyEngine.DEFAULT_SENSITIVE_COLUMNS. -/
def DEFAULT_SENSITIVE_COLUMNS : List String :=
  ["name", "email", "phone", "id_card", "ssn", "mobile"]

/-- src/main/policy/engine.py, class PolicyEngine: the configuration and
the sensitive-column list resolved by __init__. -/
structure PolicyEngine where
  config : Config
  sensitive_columns : List String

/-- PolicyEngine.__init__: `self.config.get_sensitive_columns() or
self.DEFAULT_SENSITIVE_COLUMNS` (an empty configured list is falsy). -/
def PolicyEngine.new (cfg : Config) : PolicyEngine :=
  { config := cfg
    sensitive_columns :=
      if cfg.sensitive_columns = [] then DEFAULT_SENSITIVE_COLUMNS
      else cfg.sensitive_columns }

/-- The role_config computed at the top of evaluate: `if user_role:
role_config = self.config.get_role_config(user_role)` — an empty string
is falsy, and get_role_config returns None for an unknown role. -/
def PolicyEngine.roleConfigOf (e : PolicyEngine) (user_role : Option String) :
    Option RoleConfig :=
  match user_role with
  | none => none
  | some r => if r = "" then none else alistGet e.config.roles r

/-- PolicyEngine._check_table_access: the first queried table on the
denied list rejects; otherwise, with a non-empty allowed list, the first
queried table off that list rejects. -/
def checkTableAccess (ar : AnalysisResult) (rc : RoleConfig) :
    Option PolicyDecision :=
  match ar.tables.find? (fun t => rc.denied_tables.contains t) with
  | some t => some { action := "REJECT"
                     reason := "Access denied to table: " ++ t
                     matched_rule := some "role_table_deny" }
  | none =>
      if rc.allowed_tables = [] then none
      else
        match ar.tables.find? (fun t => !rc.allowed_tables.contains t) with
        | some t => some { action := "REJECT"
                           reason := "Table not in allowed list: " ++ t
                           matched_rule := some "role_table_allow" }
        | none => none

/-- PolicyEngine._get_highest_classification: fold the classification of
every table policy, keeping the highest order. -/
def Config.highestClassification (cfg : Config) (ar : AnalysisResult) :
    DataClassification :=
  ar.tables.foldl
    (fun h t =>
      match alistGet cfg.table_policies t with
      | none => h
      | some tp =>
          if h.order < tp.classification.order then tp.classification else h)
    .publicLevel

/-- PolicyEngine._check_column_patterns: first matching pattern of the
first matching column wins. -/
def Config.checkColumnPatterns (cfg : Config) (ar : AnalysisResult) :
    Option PolicyDecision :=
  ar.select_columns.findSome? (fun column =>
    cfg.column_patterns.findSome? (fun p =>
      if p.matchesCol column then
        some { action := p.privacy_method
               params := p.params
               matched_rule := some ("pattern:" ++ p.pattern)
               reason := "Column " ++ column ++ " matches pattern " ++ p.pattern
               classification := some p.classification }
      else none))

/-- PolicyEngine._has_sensitive_columns: some selected column, lowered,
appears verbatim in the sensitive list. -/
def PolicyEngine.hasSensitiveColumns (e : PolicyEngine) (ar : AnalysisResult) :
    Bool :=
  ar.select_columns.any (fun col => e.sensitive_columns.contains (pyLower col))

/-- The rendering of a Python list in an f-string reason, with the
quoting of the elements elided (no decision logic reads these strings). -/
def pyStrList (l : List String) : String :=
  "[" ++ String.intercalate ", " l ++ "]"

/-- Python list(set(...)): the distinct elements, here in first-occurrence
order (CPython iterates a set in unspecified order; theorems about the
result use membership only). -/
def pySetList (l : List String) : List String :=
  l.foldl (fun acc x => if x ∈ acc then acc else acc ++ [x]) []

/-- PolicyEngine._create_dp_decision.  The classification argument is an
always-truthy enum member, so the classification-rule clamp always
applies. -/
def PolicyEngine.createDpDecision (e : PolicyEngine) (ar : AnalysisResult)
    (role_config : Option RoleConfig) (classification : DataClassification) :
    PolicyDecision :=
  let eps1 := match role_config with
    | some rc => rc.epsilon
    | none => e.config.default_epsilon
  let delta := match role_config with
    | some rc => rc.delta
    | none => (1 : ℚ) / 100000
  let eps := min eps1 (e.config.classEpsilon classification eps1)
  { action := "DP"
    params := { epsilon := some eps
                delta := some delta
                mechanism := some "laplace"
                sensitivity := some 1 }
    matched_rule := some "aggregation_rule"
    reason := "Aggregation detected: " ++ pyStrList ar.aggregations
    classification := some classification }

/-- PolicyEngine._create_deid_decision: the sensitive-matched selected
columns, extended with the denied-matched ones and deduplicated when the
role has a non-empty denied_columns list. -/
def PolicyEngine.createDeidDecision (e : PolicyEngine) (ar : AnalysisResult)
    (role_config : Option RoleConfig) : PolicyDecision :=
  let cols := ar.select_columns.filter
    (fun col => e.sensitive_columns.contains (pyLower col))
  let cols := match role_config with
    | some rc =>
        if rc.denied_columns = [] then cols
        else pySetList (cols ++ ar.select_columns.filter
          (fun col => (rc.denied_columns.map pyLower).contains (pyLower col)))
    | none => cols
  { action := "DeID"
    params := { method := some "hash"
                columns := some cols }
    matched_rule := some "sensitive_column_rule"
    reason := "Sensitive columns detected: " ++ pyStrList cols }

/-- PolicyEngine.evaluate: invalid SQL rejects; a role can reject by
table access; then column patterns, the aggregation rule, the
sensitive-column rule, and finally PASS.  Python renders a None
error_message as the string "None" inside the f-string. -/
def PolicyEngine.evaluate (e : PolicyEngine) (ar : AnalysisResult)
    (user_role : Option String := none) : PolicyDecision :=
  if ar.is_valid = false then
    { action := "REJECT"
      reason := "Invalid SQL: " ++ ar.error_message.getD "None" }
  else
    let role_config := e.roleConfigOf user_role
    match (match role_config with
           | some rc => checkTableAccess ar rc
           | none => none) with
    | some d => d
    | none =>
        let classification := e.config.highestClassification ar
        match e.config.checkColumnPatterns ar with
        | some d => { d with classification := some classification
                             role_applied := user_role }
        | none =>
            if ar.is_aggregate_query || !ar.aggregations.isEmpty then
              { e.createDpDecision ar role_config classification with
                  role_applied := user_role }
            else if e.hasSensitiveColumns ar then
              { e.createDeidDecision ar role_config with
                  classification := some classification
                  role_applied := user_role }
            else
              { action := "PASS"
                reason := "No privacy protection required"
                classification := some classification
                role_applied := user_role }

/-- Role of the C7 scenario: no sensitive overlap, one denied column. -/
def c7role : RoleConfig :=
  { name := "intern"
    denied_columns := ["salary"] }

/-- Configuration of the C7 scenario: the default config plus the intern
role. -/
def c7cfg : Config :=
  { defaultConfig with roles := [("intern", c7role)] }

/-- C7 counterexample query: a valid, non-aggregate select of the single
column "salary", which is denied to the intern role but not sensitive. -/
def c7ar : AnalysisResult :=
  { tables := ["employees"]
    select_columns := ["salary"] }

/-- C7 witness query: one sensitive column and one denied column. -/
def c7war : AnalysisResult :=
  { tables := ["employees"]
    select_columns := ["email", "salary"] }

end Policy

namespace Driver

open Policy

/-- src/main/core/context.py, dataclass QueryContext.  These six fields
are ALL the attributes a QueryContext has: in particular there is no
query_id and no metadata attribute, although driver.py reads
context.query_id and context.metadata — those accesses raise
AttributeError, modelled by the attributeError results below.  The extra
dict values are never read, so only the keys are kept. -/
structure QueryContext where
  user_id : Option String := none
  user_role : Option String := none
  request_id : Option String := none
  timestamp : ℚ := 0
  privacy_budget : Option ℚ := none
  extra : List String := []
deriving DecidableEq, Repr

/-- The dict QueryExecutor.execute returns: either the REJECT error
response {type: ERROR, error: reason} or a backend response of some type
(MOCK data, DP, DeID or PASS results), opaque here. -/
inductive ExecOutcome where
  | errorResp (error : String)
  | resp (ty : String)
deriving DecidableEq, Repr

/-- QueryExecutor.execute (src/main/executor/query_executor.py:498-541):
a REJECT decision short-circuits to the {type: ERROR, error:
decision.reason} response without touching the database; everything else
is the backend's business. -/
def executorExecute (backend : String → AnalysisResult → PolicyDecision → ExecOutcome)
    (sql : String) (ar : AnalysisResult) (d : PolicyDecision) : ExecOutcome :=
  if d.action = "REJECT" then .errorResp d.reason
  else backend sql ar d

/-- The outcome of QueryDriver.process_query: the executor response
(together with the decision that was handed to the executor), the
insufficient-budget early return, or an uncaught AttributeError naming
the missing QueryContext attribute. -/
inductive ProcessResult where
  | ok (decision : PolicyDecision) (response : ExecOutcome)
  | insufficientBudget (message : String) (remaining : ℚ) (requested : ℚ)
  | attributeError (attr : String)
deriving DecidableEq, Repr

/-- src/main/core/driver.py, class QueryDriver.  analyze stands for
SQLAnalyzer.analyze and backend for the non-REJECT part of the executor,
both abstract; the remaining fields mirror __init__. -/
structure QueryDriver where
  analyze : String → AnalysisResult
  policy_engine : PolicyEngine
  budget_manager : Option Budget.Manager := none
  enable_budget_management : Bool := false
  backend : String → AnalysisResult → PolicyDecision → ExecOutcome

/-- `context.user_id or "anonymous"` in _check_and_consume_budget (None
and the empty string are falsy). -/
def userIdOf (ctx : QueryContext) : String :=
  match ctx.user_id with
  | none => "anonymous"
  | some s => if s = "" then "anonymous" else s

/-- QueryDriver._calculate_multi_table_sensitivity: 1 + 0.5 per join,
times 1.2 per LEFT/RIGHT/FULL join, times (1 + 0.3·|subqueries|) when
subqueries exist, times (1 + 0.2·|window functions|) when window
functions exist. -/
def calcMultiTableSensitivity (ar : AnalysisResult) : ℚ :=
  let jf : ℚ := 1 + ar.joins.length * (1 / 2)
  let jf := jf * ((6 / 5 : ℚ) ^
    (ar.joins.filter (fun j => ["LEFT", "RIGHT", "FULL"].contains j.join_type)).length)
  let jf := if ar.subqueries = [] then jf
    else jf * (1 + ar.subqueries.length * (3 / 10))
  let jf := if ar.window_functions = [] then jf
    else jf * (1 + ar.window_functions.length * (2 / 10))
  1 * jf

/-- QueryDriver.process_query.  The policy decision is computed WITHOUT
the context's user_role (driver.py:179 passes only analysis_result).
With budget management enabled the budget block runs for every decision:
epsilon falls back to 0.1 because PolicyDecision has no epsilon attribute
and only a DP decision carries an epsilon param; when the check allows,
the consume call reads context.query_id and raises AttributeError before
consuming anything.  Without budget management, a query with joins
computes the multi-table sensitivity and then raises AttributeError on
the context.metadata store; otherwise the executor runs (the
budget_status attachment after the executor is unreachable, since the
budget-enabled path never gets there). -/
def QueryDriver.process_query (dr : QueryDriver) (now : ℚ) (original_sql : String)
    (ctx : QueryContext) : ProcessResult × QueryDriver :=
  let ar := dr.analyze original_sql
  let d := dr.policy_engine.evaluate ar none
  if dr.enable_budget_management then
    match dr.budget_manager with
    | some m =>
        let eps := d.params.epsilon.getD (1 / 10)
        let cm := m.check_budget now (userIdOf ctx) eps
        if cm.1.allowed then
          (.attributeError "query_id", { dr with budget_manager := some cm.2 })
        else
          (.insufficientBudget cm.1.message cm.1.remaining_budget cm.1.requested_budget,
           { dr with budget_manager := some cm.2 })
    | none =>
        if ar.joins = [] then
          (.ok d (executorExecute dr.backend original_sql ar d), dr)
        else (.attributeError "metadata", dr)
  else
    if ar.joins = [] then
      (.ok d (executorExecute dr.backend original_sql ar d), dr)
    else (.attributeError "metadata", dr)

/-- The budget check _check_and_consume_budget performs, exactly as the
driver invokes it: user from the context with the anonymous fallback, and
epsilon from the decision's params with the 0.1 getattr fallback. -/
def budgetProbe (dr : QueryDriver) (now : ℚ) (sql : String) (ctx : QueryContext)
    (m : Budget.Manager) : Budget.BudgetCheckResult × Budget.Manager :=
  m.check_budget now (userIdOf ctx)
    (((dr.policy_engine.evaluate (dr.analyze sql) none).params.epsilon).getD (1 / 10))

/-- The policy engine of the C1 witness driver: default configuration. -/
def c1engine : PolicyEngine := PolicyEngine.new defaultConfig

/-- The C1 witness analysis result: a plain select with no aggregation,
no sensitive column and no joins — a PASS decision. -/
def c1ar : AnalysisResult :=
  { tables := ["trips"]
    select_columns := ["city"] }

/-- The C1 witness budget manager: a fresh default manager. -/
def c1m : Budget.Manager := Budget.Manager.init 1 none none

/-- The C1 witness driver: budget management enabled. -/
def c1dr : QueryDriver :=
  { analyze := fun _ => c1ar
    policy_engine := c1engine
    budget_manager := some c1m
    enable_budget_management := true
    backend := fun _ _ _ => .resp "MOCK" }

/-- The C1 witness context. -/
def c1ctx : QueryContext := { user_id := some "alice" }

/-- Role of the S4 scenario: intern may not read the salaries table. -/
def s4role : RoleConfig :=
  { name := "intern"
    denied_tables := ["salaries"] }

/-- Configuration of the S4 scenario. -/
def s4cfg : Config :=
  { defaultConfig with roles := [("intern", s4role)] }

/-- The S4 analysis result: SELECT AVG(x) FROM salaries. -/
def s4ar : AnalysisResult :=
  { tables := ["salaries"]
    select_columns := ["x"]
    aggregations := ["AVG"]
    is_aggregate_query := true
    original_sql := "SELECT AVG(x) FROM salaries" }

/-- The S4 driver: no budget management, S4 policy configuration. -/
def s4dr : QueryDriver :=
  { analyze := fun _ => s4ar
    policy_engine := PolicyEngine.new s4cfg
    backend := fun _ _ _ => .resp "MOCK" }

/-- The S4 context: the intern role is supplied but ignored. -/
def s4ctx : QueryContext :=
  { user_id := some "ivy"
    user_role := some "intern" }

/-- C8 analysis result with one LEFT join, two subqueries, one window
function: sensitivity (1 + 0.5)·1.2·(1 + 0.6)·(1 + 0.2) = 432/125. -/
def c8ar : AnalysisResult :=
  { tables := ["a", "b"]
    select_columns := ["x"]
    joins := [{ join_type := "LEFT", tables := ["a", "b"] }]
    subqueries := ["s1", "s2"]
    window_functions := ["ROW_NUMBER"] }

/-- C8 analysis result with one LEFT join only. -/
def c8arJoin : AnalysisResult :=
  { tables := ["a", "b"]
    select_columns := ["x"]
    joins := [{ join_type := "LEFT", tables := ["a", "b"] }] }

/-- C8 analysis result with a subquery but no joins: the spec expects
sensitivity 1.3 to be stored, the code never computes it. -/
def c8arSub : AnalysisResult :=
  { tables := ["a"]
    select_columns := ["x"]
    subqueries := ["SELECT max(y) FROM b"] }

/-- The C8 driver: "J" analyzes to the join query, anything else to the
subquery-only query. -/
def c8dr : QueryDriver :=
  { analyze := fun sql => if sql = "J" then c8arJoin else c8arSub
    policy_engine := PolicyEngine.new defaultConfig
    backend := fun _ _ _ => .resp "MOCK" }

/-- The C8 context (all defaults). -/
def c8ctx : QueryContext := {}

end Driver

end PQE

namespace PQE

theorem alistGet_replace_self {κ α : Type} [DecidableEq κ] (l : List (κ × α)) (k : κ) (v : α)
    (h : alistHas l k = true) : alistGet (alistReplace l k v) k = some v := by
  induction l with
  | nil => simp [alistHas] at h
  | cons p t ih =>
    by_cases hp : p.1 = k
    · simp [alistReplace, alistGet, hp]
    · simp [alistHas, hp] at h
      simp [alistReplace, alistGet, hp, ih h]

theorem alistGet_set_self {κ α : Type} [DecidableEq κ] (l : List (κ × α)) (k : κ) (v : α) :
    alistGet (alistSet l k v) k = some v := by
  unfold alistSet
  by_cases h : alistHas l k = true
  · simp [h, alistGet_replace_self l k v h]
  · simp [h]
    induction l with
    | nil => simp [alistGet]
    | cons p t ih =>
      simp [alistHas] at h
      simp [alistGet, h.1, ih (by simp [alistHas, h.2])]

theorem alistGet_replace_ne {κ α : Type} [DecidableEq κ] (l : List (κ × α)) (k k2 : κ) (v : α)
    (h : k2 ≠ k) : alistGet (alistReplace l k v) k2 = alistGet l k2 := by
  induction l with
  | nil => simp [alistReplace]
  | cons p t ih =>
    simp only [alistReplace]
    by_cases hp : p.1 = k
    · rw [if_pos hp]
      have hk2 : ¬ (p.1 = k2) := by rw [hp]; exact fun hh => h hh.symm
      simp [alistGet, hk2, ih]
    · rw [if_neg hp]
      by_cases hp2 : p.1 = k2 <;> simp [alistGet, hp2, ih]

theorem alistGet_set_ne {κ α : Type} [DecidableEq κ] (l : List (κ × α)) (k k2 : κ) (v : α)
    (h : k2 ≠ k) : alistGet (alistSet l k v) k2 = alistGet l k2 := by
  unfold alistSet
  by_cases hh : alistHas l k = true
  · simp [hh, alistGet_replace_ne l k k2 v h]
  · simp only [hh, if_false, Bool.false_eq_true]
    have hk : ¬ (k = k2) := fun hh2 => h hh2.symm
    induction l with
    | nil => simp [alistGet, hk]
    | cons p t ih =>
      simp [alistHas] at hh
      simp [alistGet, ih (by simp [alistHas, hh.2])]

theorem alistGet_mem {κ α : Type} [DecidableEq κ] {l : List (κ × α)} {k : κ} {v : α}
    (h : alistGet l k = some v) : (k, v) ∈ l := by
  induction l with
  | nil => simp [alistGet] at h
  | cons p t ih =>
    by_cases hp : p.1 = k
    · simp [alistGet, hp] at h
      refine List.mem_cons.mpr (Or.inl ?_)
      rw [← hp, ← h]
    · simp [alistGet, hp] at h
      exact List.mem_cons_of_mem _ (ih h)

theorem mem_alistReplace {κ α : Type} [DecidableEq κ] {l : List (κ × α)} {k : κ}
    {v : α} {p : κ × α} (h : p ∈ alistReplace l k v) : p ∈ l ∨ p = (k, v) := by
  induction l with
  | nil => simp [alistReplace] at h
  | cons q t ih =>
    by_cases hq : q.1 = k
    · simp [alistReplace, hq] at h
      rcases h with h | h
      · right; rw [h, ← hq]
      · rcases ih h with h2 | h2
        · left; exact List.mem_cons_of_mem _ h2
        · right; exact h2
    · simp [alistReplace, hq] at h
      rcases h with h | h
      · left; simp [h]
      · rcases ih h with h2 | h2
        · left; exact List.mem_cons_of_mem _ h2
        · right; exact h2

theorem mem_alistSet {κ α : Type} [DecidableEq κ] {l : List (κ × α)} {k : κ}
    {v : α} {p : κ × α} (h : p ∈ alistSet l k v) : p ∈ l ∨ p = (k, v) := by
  unfold alistSet at h
  by_cases hh : alistHas l k = true
  · rw [if_pos hh] at h
    exact mem_alistReplace h
  · rw [if_neg hh] at h
    rcases List.mem_append.mp h with h2 | h2
    · left; exact h2
    · right; simpa using h2

namespace Budget

theorem checkAndReset_not_due (a : BudgetAccount) (now : ℚ)
    (h : resetDue a now = false) :
    (checkAndResetIfNeeded a now).consumed_budget = a.consumed_budget ∧
    (checkAndResetIfNeeded a now).total_budget = a.total_budget := by
  unfold resetDue at h
  unfold checkAndResetIfNeeded
  rcases hp : period? a.reset_schedule.frequency with _ | p <;> rw [hp] at h
  · exact ⟨rfl, rfl⟩
  · rcases hl : a.last_reset with _ | lr <;> rw [hl] at h
    · exact ⟨rfl, rfl⟩
    · simp at h
      simp [not_le.mpr h]

/-- C6: consume_budget returns false without touching the consumed budget
or the history when the post-reset remaining budget is below ε, and
otherwise returns true, adds exactly ε to the consumed budget, sets
updated_at to the current time, and appends exactly one transaction whose
query_hash is the truncated digest of the normalized SQL (empty when no
SQL is supplied).  The hypothesis ties the two manager dicts together: a
user without an account has no transaction list, which holds for every
manager the public operations can build. -/
theorem consume_budget_contract (H : String → String) (m : Manager) (now : ℚ)
    (u : String) (ε : ℚ) (qid qsql : Option String) (mech : String)
    (hcoupled : alistGet m.accounts u = none → alistGet m.transactions u = none) :
    if (m.postResetAccount now u).remaining_budget < ε then
      (m.consume_budget H now u ε qid qsql mech).1 = false ∧
      (alistGet (m.consume_budget H now u ε qid qsql mech).2.accounts u).map
          (fun a => a.consumed_budget) =
        some (m.postResetAccount now u).consumed_budget ∧
      (m.consume_budget H now u ε qid qsql mech).2.txnsOf u = m.txnsOf u
    else
      (m.consume_budget H now u ε qid qsql mech).1 = true ∧
      alistGet (m.consume_budget H now u ε qid qsql mech).2.accounts u =
        some { m.postResetAccount now u with
                 consumed_budget := (m.postResetAccount now u).consumed_budget + ε
                 updated_at := now } ∧
      (m.consume_budget H now u ε qid qsql mech).2.txnsOf u =
        m.txnsOf u ++ [m.consumedTxn H now u ε qid qsql mech] ∧
      (m.consumedTxn H now u ε qid qsql mech).epsilon_consumed = ε ∧
      (m.consumedTxn H now u ε qid qsql mech).query_hash = queryHashOfSql H qsql := by
  rcases hacc : alistGet m.accounts u with _ | a
  · have hpost : m.postResetAccount now u =
        checkAndResetIfNeeded (m.freshAccount now u "default" none) now := by
      simp [Manager.postResetAccount, Manager.get_or_create_account, hacc]
    have htx : m.txnsOf u = [] := by
      simp [Manager.txnsOf, hcoupled hacc]
    by_cases hlt :
        (checkAndResetIfNeeded (m.freshAccount now u "default" none) now).remaining_budget < ε
    · rw [hpost, if_pos hlt]
      simp only [Manager.consume_budget, Manager.get_or_create_account, hacc,
        Manager.store]
      rw [if_pos hlt]
      refine ⟨rfl, ?_, ?_⟩
      · simp [alistGet_set_self]
      · simp [htx, Manager.txnsOf, alistGet_set_self, hcoupled hacc]
    · rw [hpost, if_neg hlt]
      simp only [Manager.consume_budget, Manager.get_or_create_account, hacc,
        Manager.store]
      rw [if_neg hlt]
      refine ⟨rfl, ?_, ?_, rfl, rfl⟩
      · simp [alistGet_set_self]
      · simp [htx, Manager.txnsOf, Manager.consumedTxn, alistGet_set_self, hcoupled hacc]
  · have hpost : m.postResetAccount now u = checkAndResetIfNeeded a now := by
      simp [Manager.postResetAccount, Manager.get_or_create_account, hacc]
    by_cases hlt : (checkAndResetIfNeeded a now).remaining_budget < ε
    · rw [hpost, if_pos hlt]
      simp only [Manager.consume_budget, Manager.get_or_create_account, hacc,
        Manager.store]
      rw [if_pos hlt]
      refine ⟨rfl, ?_, rfl⟩
      simp [alistGet_set_self]
    · rw [hpost, if_neg hlt]
      simp only [Manager.consume_budget, Manager.get_or_create_account, hacc,
        Manager.store]
      rw [if_neg hlt]
      refine ⟨rfl, ?_, ?_, rfl, rfl⟩
      · simp [alistGet_set_self]
      · simp [Manager.txnsOf, Manager.consumedTxn, alistGet_set_self]

/-- Witness for consume_budget_contract: on a fresh default manager the
coupling hypothesis holds trivially and a consume of 1/2 succeeds. -/
theorem consume_budget_contract_witness :
    ((Manager.init 1 none none).consume_budget (fun s => s) 0 "w" (1/2) none none
      "laplace").1 = true := by
  have hcoupled : alistGet (Manager.init 1 none none).accounts "w" = none →
      alistGet (Manager.init 1 none none).transactions "w" = none := fun _ => rfl
  have h := consume_budget_contract (fun s => s) (Manager.init 1 none none) 0 "w"
    (1/2) none none "laplace" hcoupled
  have hne : ¬ (((Manager.init 1 none none).postResetAccount 0 "w").remaining_budget
      < 1/2) := by
    norm_num +decide [Manager.postResetAccount, Manager.init,
      Manager.get_or_create_account, Manager.freshAccount, checkAndResetIfNeeded,
      period?, BudgetAccount.remaining_budget, defaultRoleBudgets, alistSet,
      alistHas, alistReplace, alistGet]
  rw [if_neg hne] at h
  exact h.1

/-- C9: remaining budgets exposed at the public interface are clamped at
zero: every remaining_budget value is non-negative, is_exhausted holds
exactly when the consumed budget has reached the total, check_budget and
get_budget_status report a non-negative remaining budget, and for an
account whose consumed budget is at least its total (as after set_budget
lowered the total below the consumed amount), a consume_budget call with a
positive ε fails, provided no scheduled reset intervenes at that instant. -/
theorem clamped_remaining_reporting (H : String → String) (m : Manager)
    (now : ℚ) (u : String) (ε : ℚ) (a : BudgetAccount)
    (qid qsql : Option String) (mech : String)
    (ha : alistGet m.accounts u = some a)
    (hover : a.total_budget ≤ a.consumed_budget)
    (hnr : resetDue a now = false)
    (hε : 0 < ε) :
    (∀ b : BudgetAccount, 0 ≤ b.remaining_budget ∧
        (b.is_exhausted = true ↔ b.total_budget ≤ b.consumed_budget)) ∧
    0 ≤ ((m.check_budget now u ε).1).remaining_budget ∧
    0 ≤ ((m.get_budget_status now u).1).remaining_budget ∧
    (m.consume_budget H now u ε qid qsql mech).1 = false := by
  have hclamp : ∀ b : BudgetAccount, 0 ≤ b.remaining_budget := fun b =>
    le_max_left 0 _
  refine ⟨fun b => ⟨hclamp b, ?_⟩, ?_, ?_, ?_⟩
  · unfold BudgetAccount.is_exhausted BudgetAccount.remaining_budget
    rw [decide_eq_true_eq, max_le_iff]
    constructor
    · exact fun h => sub_nonpos.mp h.2
    · exact fun h => ⟨le_refl 0, sub_nonpos.mpr h⟩
  · simp only [Manager.check_budget, Manager.get_or_create_account, ha]
    exact hclamp _
  · simp only [Manager.get_budget_status, Manager.get_or_create_account, ha]
    exact hclamp _
  · have hz : (checkAndResetIfNeeded a now).remaining_budget < ε := by
      have h2 := checkAndReset_not_due a now hnr
      unfold BudgetAccount.remaining_budget
      rw [h2.1, h2.2]
      have : a.total_budget - a.consumed_budget ≤ 0 := sub_nonpos.mpr hover
      calc max 0 (a.total_budget - a.consumed_budget) = 0 := max_eq_left this
      _ < ε := hε
    simp only [Manager.consume_budget, Manager.get_or_create_account, ha,
      Manager.store]
    rw [if_pos hz]

/-- Witness for clamped_remaining_reporting at the concrete scenario. -/
theorem clamped_remaining_reporting_witness :
    (alistGet c9mgr.accounts "u" = some c9acct ∧
      c9acct.total_budget ≤ c9acct.consumed_budget ∧
      resetDue c9acct 0 = false ∧ (0 : ℚ) < 1) ∧
    (c9mgr.consume_budget (fun s => s) 0 "u" 1 none none "laplace").1 = false := by
  have ha : alistGet c9mgr.accounts "u" = some c9acct := by
    simp [c9mgr, alistGet]
  have hover : c9acct.total_budget ≤ c9acct.consumed_budget := by
    norm_num [c9acct]
  have hnr : resetDue c9acct 0 = false := by
    norm_num [resetDue, c9acct, period?]
  have hε : (0 : ℚ) < 1 := by norm_num
  exact ⟨⟨ha, hover, hnr, hε⟩,
    (clamped_remaining_reporting (fun s => s) c9mgr 0 "u" 1 c9acct none none
      "laplace" ha hover hnr hε).2.2.2⟩

theorem AccountInv.resetStep {a : BudgetAccount} (now : ℚ) (h : AccountInv a) :
    AccountInv (checkAndResetIfNeeded a now) := by
  unfold checkAndResetIfNeeded
  split
  · exact h
  · split
    · exact h
    · split
      · exact ⟨le_refl 0, le_trans h.1 h.2⟩
      · exact h

theorem none_tb_ok : ∀ q : ℚ, (none : Option ℚ) = some q → 0 ≤ q :=
  fun _ hq => by simp at hq

theorem freshAccount_inv {m : Manager} (now : ℚ) (u role : String)
    (tb : Option ℚ) (hcfg : 0 ≤ m.default_budget ∧ ∀ p ∈ m.role_budgets, 0 ≤ p.2)
    (htb : ∀ q, tb = some q → 0 ≤ q) :
    AccountInv (m.freshAccount now u role tb) := by
  refine ⟨le_refl 0, ?_⟩
  show (0 : ℚ) ≤ tb.getD ((alistGet m.role_budgets role).getD m.default_budget)
  rcases tb with _ | q
  · rcases hrole : alistGet m.role_budgets role with _ | b
    · exact hcfg.1
    · exact hcfg.2 (role, b) (alistGet_mem hrole)
  · exact htb q rfl

theorem store_accounts_inv {m : Manager} {a : BudgetAccount} (u : String)
    (hm : ∀ p ∈ m.accounts, AccountInv p.2) (ha : AccountInv a) :
    ∀ p ∈ (m.store u a).accounts, AccountInv p.2 := by
  intro p hp
  rcases mem_alistSet hp with h | h
  · exact hm p h
  · rw [h]; exact ha

theorem get_or_create_inv {m : Manager} (now : ℚ) (u role : String)
    (tb : Option ℚ) (hm : ManagerInv m) (htb : ∀ q, tb = some q → 0 ≤ q) :
    AccountInv (m.get_or_create_account now u role tb).1 ∧
    ManagerInv (m.get_or_create_account now u role tb).2 := by
  rcases hacc : alistGet m.accounts u with _ | a
  · simp only [Manager.get_or_create_account, hacc]
    refine ⟨freshAccount_inv now u role tb hm.1 htb, hm.1, ?_⟩
    intro p hp
    rcases mem_alistSet hp with h | h
    · exact hm.2 p h
    · rw [h]; exact freshAccount_inv now u role tb hm.1 htb
  · simp only [Manager.get_or_create_account, hacc]
    exact ⟨hm.2 (u, a) (alistGet_mem hacc), hm⟩

theorem store_managerInv {m : Manager} {a : BudgetAccount} (u : String)
    (hm : ManagerInv m) (ha : AccountInv a) : ManagerInv (m.store u a) :=
  ⟨hm.1, store_accounts_inv u hm.2 ha⟩

theorem consumedAccount_inv {a1 : BudgetAccount} (now ε : ℚ) (h1 : AccountInv a1)
    (hε : 0 ≤ ε) (hlt : ¬ a1.remaining_budget < ε) :
    AccountInv { a1 with
        consumed_budget := a1.consumed_budget + ε
        updated_at := now } := by
  refine ⟨add_nonneg h1.1 hε, ?_⟩
  show a1.consumed_budget + ε ≤ a1.total_budget
  have hre : ε ≤ a1.remaining_budget := not_lt.mp hlt
  have hmax : a1.remaining_budget = a1.total_budget - a1.consumed_budget := by
    unfold BudgetAccount.remaining_budget
    exact max_eq_right (sub_nonneg.mpr h1.2)
  rw [hmax] at hre
  linarith

theorem reachable_managerInv (H : String → String) (m : Manager)
    (h : ReachableM H m) : ManagerInv m := by
  induction h with
  | init db rb sched hdb hrb =>
    refine ⟨⟨hdb, ?_⟩, ?_⟩
    · intro p hp
      simp only [Manager.init] at hp
      rcases mem_alistSet hp with h2 | h2
      · exact hrb p h2
      · rw [h2]; exact hdb
    · intro p hp
      simp [Manager.init] at hp
  | step m op hm hop ih =>
    cases op with
    | check now u ε =>
      have hg := get_or_create_inv now u "default" none ih none_tb_ok
      rcases hacc : alistGet m.accounts u with _ | a
      all_goals
        simp only [Manager.applyOp, Manager.check_budget,
          Manager.get_or_create_account, hacc] at hg ⊢
      all_goals
        exact store_managerInv u hg.2 (AccountInv.resetStep now hg.1)
    | consume now u ε qid qsql mech =>
      have hε : 0 ≤ ε := hop
      have hg := get_or_create_inv now u "default" none ih none_tb_ok
      rcases hacc : alistGet m.accounts u with _ | a
      · simp only [Manager.applyOp, Manager.consume_budget,
          Manager.get_or_create_account, hacc] at hg ⊢
        have h1 := AccountInv.resetStep (a := m.freshAccount now u "default" none) now hg.1
        by_cases hlt : (checkAndResetIfNeeded
            (m.freshAccount now u "default" none) now).remaining_budget < ε
        · rw [if_pos hlt]
          exact store_managerInv u hg.2 h1
        · rw [if_neg hlt]
          have h3 := store_managerInv u (store_managerInv u hg.2 h1)
            (consumedAccount_inv now ε h1 hε hlt)
          exact ⟨h3.1, h3.2⟩
      · simp only [Manager.applyOp, Manager.consume_budget,
          Manager.get_or_create_account, hacc] at hg ⊢
        have h1 := AccountInv.resetStep (a := a) now hg.1
        by_cases hlt : (checkAndResetIfNeeded a now).remaining_budget < ε
        · rw [if_pos hlt]
          exact store_managerInv u hg.2 h1
        · rw [if_neg hlt]
          have h3 := store_managerInv u (store_managerInv u hg.2 h1)
            (consumedAccount_inv now ε h1 hε hlt)
          exact ⟨h3.1, h3.2⟩
    | resetOp now u =>
      have hg := get_or_create_inv now u "default" none ih none_tb_ok
      rcases hacc : alistGet m.accounts u with _ | a
      all_goals
        simp only [Manager.applyOp, Manager.reset_budget,
          Manager.get_or_create_account, hacc] at hg ⊢
      all_goals
        exact store_managerInv u hg.2 ⟨le_refl 0, le_trans hg.1.1 hg.1.2⟩
    | setBudget now u b =>
      have hb : 0 ≤ b := hop.1
      have hg := get_or_create_inv now u "default" none ih none_tb_ok
      rcases hacc : alistGet m.accounts u with _ | a
      · simp only [Manager.applyOp, Manager.set_budget,
          Manager.get_or_create_account, hacc] at hg ⊢
        exact store_managerInv u hg.2 ⟨le_refl 0, hb⟩
      · simp only [Manager.applyOp, Manager.set_budget,
          Manager.get_or_create_account, hacc] at hg ⊢
        exact store_managerInv u hg.2 ⟨hg.1.1, hop.2 a hacc⟩
    | setSchedule now u sc =>
      have hg := get_or_create_inv now u "default" none ih none_tb_ok
      rcases hacc : alistGet m.accounts u with _ | a
      all_goals
        simp only [Manager.applyOp, Manager.set_reset_schedule,
          Manager.get_or_create_account, hacc] at hg ⊢
      all_goals
        exact store_managerInv u hg.2 ⟨hg.1.1, hg.1.2⟩
    | create now u role tb =>
      exact (get_or_create_inv now u role tb ih hop).2

/-- C2 (amended): under non-negative configured budgets, non-negative
consume amounts, non-negative creation budgets, and set_budget never
dropping the total below the consumed amount of an existing account, every
reachable manager state keeps 0 ≤ consumed_budget ≤ total_budget for every
account, the remaining budget equals total minus consumed, and check_budget
reports exactly that difference for the post-reset account it inspected. -/
theorem budget_invariant_amended (H : String → String) (m : Manager)
    (h : ReachableM H m) :
    (∀ p ∈ m.accounts, 0 ≤ p.2.consumed_budget ∧
        p.2.consumed_budget ≤ p.2.total_budget ∧
        p.2.remaining_budget = p.2.total_budget - p.2.consumed_budget) ∧
    ∀ now u ε, ((m.check_budget now u ε).1).remaining_budget =
      (m.postResetAccount now u).total_budget -
        (m.postResetAccount now u).consumed_budget := by
  have hi := reachable_managerInv H m h
  constructor
  · intro p hp
    have h2 := hi.2 p hp
    refine ⟨h2.1, h2.2, ?_⟩
    unfold BudgetAccount.remaining_budget
    exact max_eq_right (sub_nonneg.mpr h2.2)
  · intro now u ε
    have hg := get_or_create_inv now u "default" none hi none_tb_ok
    have hpost : AccountInv (m.postResetAccount now u) :=
      AccountInv.resetStep now hg.1
    have hres : ((m.check_budget now u ε).1).remaining_budget =
        (m.postResetAccount now u).remaining_budget := by
      rcases hacc : alistGet m.accounts u with _ | a <;>
        simp [Manager.check_budget, Manager.postResetAccount,
          Manager.get_or_create_account, hacc]
    rw [hres]
    unfold BudgetAccount.remaining_budget
    exact max_eq_right (sub_nonneg.mpr hpost.2)

/-- Witness for budget_invariant_amended at a concrete reachable state. -/
theorem budget_invariant_amended_witness :
    ReachableM (fun s => s) c2mgr ∧
    ((∀ p ∈ c2mgr.accounts, 0 ≤ p.2.consumed_budget ∧
        p.2.consumed_budget ≤ p.2.total_budget ∧
        p.2.remaining_budget = p.2.total_budget - p.2.consumed_budget) ∧
      ∀ now u ε, ((c2mgr.check_budget now u ε).1).remaining_budget =
        (c2mgr.postResetAccount now u).total_budget -
          (c2mgr.postResetAccount now u).consumed_budget) := by
  have h0 : ReachableM (fun s => s) (Manager.init 1 none none) :=
    ReachableM.init 1 none none (by norm_num)
      (by intro p hp; fin_cases hp <;> norm_num)
  have h1 : ReachableM (fun s => s) c2mgr :=
    ReachableM.step _ _ h0 (show (0 : ℚ) ≤ 1 by norm_num)
  exact ⟨h1, budget_invariant_amended (fun s => s) c2mgr h1⟩

/-- Counterexample to C2 as stated: after the operation sequence
[consume 1, set_budget 1/2] on a default manager, the stored account
violates consumed_budget ≤ total_budget, so the claimed invariant fails. -/
theorem budget_invariant_counterexample : claimedInvariantHolds c2seq = false := by
  norm_num +decide [claimedInvariantHolds, c2seq, c2mgr, Manager.applyOp,
    Manager.init, Manager.consume_budget, Manager.set_budget,
    Manager.get_or_create_account, Manager.freshAccount, Manager.store,
    checkAndResetIfNeeded, period?, BudgetAccount.remaining_budget,
    defaultRoleBudgets, alistSet, alistHas, alistReplace, alistGet,
    Manager.consumedTxn, queryHashOfSql, List.all]

end Budget

namespace Audit

theorem chain'_of_drop {α : Type} {R : α → α → Prop} {l : List α} (n : ℕ)
    (h : List.Chain' R l) : List.Chain' R (l.drop n) := by
  have h2 := List.take_append_drop n l
  rw [← h2] at h
  exact (List.chain'_append.mp h).2.1

theorem trunc_mem {α : Type} {l : List α} {x : α} {c : Prop} [Decidable c]
    {m : ℕ} (hx : x ∈ (if c then pyTail l m else l)) : x ∈ l := by
  split at hx
  · unfold pyTail at hx
    split at hx
    · exact hx
    · exact List.mem_of_mem_drop hx
  · exact hx

theorem trunc_chain {α : Type} {R : α → α → Prop} {l : List α} {c : Prop}
    [Decidable c] {m : ℕ} (h : List.Chain' R l) :
    List.Chain' R (if c then pyTail l m else l) := by
  split
  · unfold pyTail
    split
    · exact h
    · exact chain'_of_drop _ h
  · exact h

theorem pyTail_concat_getLast? {α : Type} (l : List α) (b : α) (m : ℕ) :
    (pyTail (l ++ [b]) m).getLast? = some b := by
  unfold pyTail
  split
  · exact List.getLast?_concat _
  · rw [List.drop_append_of_le_length (by
      simp only [List.length_append, List.length_singleton]
      omega)]
    exact List.getLast?_concat _

theorem trunc_concat_getLast? {α : Type} (l : List α) (b : α) {c : Prop}
    [Decidable c] (m : ℕ) :
    (if c then pyTail (l ++ [b]) m else (l ++ [b])).getLast? = some b := by
  split
  · exact pyTail_concat_getLast? l b m
  · exact List.getLast?_concat _

theorem sealedEntry_verifies {χ : Type} [DecidableEq χ] (H : EntryContent χ → χ)
    (st : Logger χ) (e : AuditLogEntry χ) :
    verifyIntegrity H (sealedEntry H st e) = true := by
  unfold verifyIntegrity sealedEntry calcHash
  exact decide_eq_true rfl

theorem loggerInv_addEntry {χ : Type} [DecidableEq χ] {H : EntryContent χ → χ}
    {st : Logger χ} (e : AuditLogEntry χ) (hinv : LoggerInv H st) :
    LoggerInv H (Logger.addEntry H st e) := by
  rcases hinv with ⟨hver, hch, hlast⟩
  refine ⟨?_, ?_, ?_⟩
  · intro x hx
    rcases List.mem_append.mp (trunc_mem hx) with h2 | h2
    · exact hver x h2
    · rw [List.mem_singleton.mp h2]
      exact sealedEntry_verifies H st e
  · apply trunc_chain
    rw [List.chain'_append]
    refine ⟨hch, List.chain'_singleton _, ?_⟩
    intro x hx y hy
    simp only [List.head?_cons, Option.mem_def, Option.some.injEq] at hy
    rw [← hy]
    show (sealedEntry H st e).previous_hash = x.entry_hash
    rw [show (sealedEntry H st e).previous_hash = st.last_hash from rfl]
    exact hlast x (by simpa using hx)
  · intro x hx
    rw [show (Logger.addEntry H st e).entries =
        (if st.max_entries < (st.entries ++ [sealedEntry H st e]).length
         then pyTail (st.entries ++ [sealedEntry H st e]) st.max_entries
         else st.entries ++ [sealedEntry H st e]) from rfl,
      trunc_concat_getLast? st.entries (sealedEntry H st e) st.max_entries] at hx
    rw [← Option.some.inj hx]
    rfl

theorem reachableL_inv {χ : Type} [DecidableEq χ] {H : EntryContent χ → χ}
    {maxE : ℕ} {st : Logger χ} (h : ReachableL H maxE st) : LoggerInv H st := by
  induction h with
  | init =>
    refine ⟨?_, ?_, ?_⟩
    · intro x hx; simp at hx
    · exact List.chain'_nil
    · intro x hx; simp at hx
  | step st e hst ih => exact loggerInv_addEntry e ih

theorem chainFrom_of_inv {χ : Type} [DecidableEq χ] (H : EntryContent χ → χ)
    (prev : AuditLogEntry χ) (l : List (AuditLogEntry χ))
    (hv : ∀ x ∈ l, verifyIntegrity H x = true)
    (hch : List.Chain' Linked (prev :: l)) : chainFrom H prev l = true := by
  induction l generalizing prev with
  | nil => rfl
  | cons c rest ih =>
    have h1 := hv c (List.mem_cons_self c rest)
    have hlink : c.previous_hash = prev.entry_hash := (List.chain'_cons.mp hch).1
    simp only [chainFrom, h1, decide_eq_true hlink,
      ih c (fun x hx => hv x (List.mem_cons_of_mem c hx)) (List.chain'_cons.mp hch).2,
      Bool.and_self]

theorem verifyList_of_inv {χ : Type} [DecidableEq χ] {H : EntryContent χ → χ}
    {st : Logger χ} (hinv : LoggerInv H st) : verifyList H st.entries = true := by
  rcases hst : st.entries with _ | ⟨c, rest⟩
  · rfl
  · simp only [verifyList]
    rw [hinv.1 c (by rw [hst]; exact List.mem_cons_self c rest),
      chainFrom_of_inv H c rest
        (fun x hx => hinv.1 x (by rw [hst]; exact List.mem_cons_of_mem c hx))
        (by rw [← hst]; exact hinv.2.1)]
    rfl

theorem chainFrom_false_of_mem {χ : Type} [DecidableEq χ] (H : EntryContent χ → χ)
    (prev : AuditLogEntry χ) {l : List (AuditLogEntry χ)} {x : AuditLogEntry χ}
    (hx : x ∈ l) (hf : verifyIntegrity H x = false) : chainFrom H prev l = false := by
  induction l generalizing prev with
  | nil => cases hx
  | cons c rest ih =>
    simp only [chainFrom]
    rcases List.mem_cons.mp hx with h | h
    · rw [← h, hf]
      rfl
    · rw [ih c h]
      simp

theorem verifyList_false_of_mem {χ : Type} [DecidableEq χ] (H : EntryContent χ → χ)
    {l : List (AuditLogEntry χ)} {x : AuditLogEntry χ}
    (hx : x ∈ l) (hf : verifyIntegrity H x = false) : verifyList H l = false := by
  rcases l with _ | ⟨c, rest⟩
  · cases hx
  · simp only [verifyList]
    rcases List.mem_cons.mp hx with h | h
    · rw [← h, hf]
      rfl
    · rw [chainFrom_false_of_mem H c h hf]
      simp

theorem verifyIntegrity_tamper {χ : Type} [DecidableEq χ] (H : EntryContent χ → χ)
    (hH : Function.Injective H) {e e2 : AuditLogEntry χ}
    (hv : verifyIntegrity H e = true) (hd : DiffersInOneField e e2) :
    verifyIntegrity H e2 = false := by
  have hv2 : e.entry_hash = some (calcHash H e) := of_decide_eq_true hv
  apply decide_eq_false
  intro habs
  rcases hd with ⟨v, he, hne⟩ | ⟨v, he, hne⟩ | ⟨v, he, hne⟩ | ⟨v, he, hne⟩ |
    ⟨v, he, hne⟩ | ⟨v, he, hne⟩ | ⟨v, he, hne⟩ | ⟨v, he, hne⟩ | ⟨v, he, hne⟩ |
    ⟨v, he, hne⟩
  · subst he
    have h4 : e.entry_hash = some (calcHash H { e with entry_id := v }) := habs
    rw [hv2] at h4
    exact hne (congrArg EntryContent.entry_id (hH (Option.some.inj h4))).symm
  · subst he
    have h4 : e.entry_hash = some (calcHash H { e with event_type := v }) := habs
    rw [hv2] at h4
    exact hne (congrArg EntryContent.event_type (hH (Option.some.inj h4))).symm
  · subst he
    have h4 : e.entry_hash = some (calcHash H { e with timestamp := v }) := habs
    rw [hv2] at h4
    exact hne (congrArg EntryContent.timestamp (hH (Option.some.inj h4))).symm
  · subst he
    have h4 : e.entry_hash = some (calcHash H { e with user_id := v }) := habs
    rw [hv2] at h4
    exact hne (congrArg EntryContent.user_id (hH (Option.some.inj h4))).symm
  · subst he
    have h4 : e.entry_hash = some (calcHash H { e with query_event := v }) := habs
    rw [hv2] at h4
    exact hne (congrArg EntryContent.query_event (hH (Option.some.inj h4))).symm
  · subst he
    have h4 : e.entry_hash = some (calcHash H { e with privacy_event := v }) := habs
    rw [hv2] at h4
    exact hne (congrArg EntryContent.privacy_event (hH (Option.some.inj h4))).symm
  · subst he
    have h4 : e.entry_hash = some (calcHash H { e with rejection_reason := v }) := habs
    rw [hv2] at h4
    exact hne (congrArg EntryContent.rejection_reason (hH (Option.some.inj h4))).symm
  · subst he
    have h4 : e.entry_hash = some (calcHash H { e with metadata := v }) := habs
    rw [hv2] at h4
    exact hne (congrArg EntryContent.metadata (hH (Option.some.inj h4))).symm
  · subst he
    have h4 : e.entry_hash = some (calcHash H { e with previous_hash := v }) := habs
    rw [hv2] at h4
    exact hne (congrArg EntryContent.previous_hash (hH (Option.some.inj h4))).symm
  · subst he
    have h3 : v = some (calcHash H e) := habs
    exact hne (h3.trans hv2.symm)

/-- C3: a log produced solely by append operations (including after head
truncation at the max_entries bound) passes verify_chain_integrity, and,
provided the digest H is collision-free on canonical contents, altering
any single field of any retained entry makes verify_chain_integrity
return false. -/
theorem audit_chain_integrity (χ : Type) [DecidableEq χ] (H : EntryContent χ → χ)
    (hH : Function.Injective H) (maxE : ℕ) (st : Logger χ)
    (hst : ReachableL H maxE st) :
    Logger.verify_chain_integrity H st = true ∧
    ∀ (i : ℕ) (e2 : AuditLogEntry χ) (hi : i < st.entries.length),
      DiffersInOneField (st.entries.get ⟨i, hi⟩) e2 →
      Logger.verify_chain_integrity H { st with entries := st.entries.set i e2 } = false := by
  have hinv := reachableL_inv hst
  constructor
  · exact verifyList_of_inv hinv
  · intro i e2 hi hd
    have hv : verifyIntegrity H (st.entries.get ⟨i, hi⟩) = true :=
      hinv.1 _ (st.entries.get_mem i hi)
    have hf := verifyIntegrity_tamper H hH hv hd
    have h2 : i < (st.entries.set i e2).length := by simpa using hi
    have hmem : e2 ∈ st.entries.set i e2 :=
      List.mem_iff_getElem.mpr ⟨i, h2, List.getElem_set_self (h := h2)⟩
    exact verifyList_false_of_mem H hmem hf

theorem encCharList_inj : Function.Injective encCharList := by
  intro l1 l2 h
  induction l1 generalizing l2 with
  | nil =>
    cases l2 with
    | nil => rfl
    | cons d u =>
      exfalso
      unfold encCharList at h
      have h2 : d.toNat + 1 ≤ Nat.pair (d.toNat + 1) (encCharList u) :=
        Nat.left_le_pair _ _
      omega
  | cons c t ih =>
    cases l2 with
    | nil =>
      exfalso
      unfold encCharList at h
      have h2 : c.toNat + 1 ≤ Nat.pair (c.toNat + 1) (encCharList t) :=
        Nat.left_le_pair _ _
      omega
    | cons d u =>
      unfold encCharList at h
      obtain ⟨h1, h2⟩ := Nat.pair_eq_pair.mp h
      have hn : c.toNat = d.toNat := by omega
      rw [Char.ext (UInt32.ext hn), ih h2]

theorem encString_inj : Function.Injective encString := by
  intro s t h
  have h2 := encCharList_inj h
  cases s; cases t; exact congrArg String.mk h2

theorem encOptString_inj : Function.Injective encOptString := by
  intro a b h
  rcases a with _ | s <;> rcases b with _ | t <;> simp only [encOptString] at h
  · rfl
  · omega
  · omega
  · rw [encString_inj (by omega : encString s = encString t)]

theorem encOptNat_inj : Function.Injective encOptNat := by
  intro a b h
  rcases a with _ | m <;> rcases b with _ | n <;> simp only [encOptNat] at h
  · rfl
  · omega
  · omega
  · rw [(by omega : m = n)]

theorem encContent_inj : Function.Injective encContent := by
  intro a b h
  unfold encContent at h
  obtain ⟨h1, h⟩ := Nat.pair_eq_pair.mp h
  obtain ⟨h2, h⟩ := Nat.pair_eq_pair.mp h
  obtain ⟨h3, h⟩ := Nat.pair_eq_pair.mp h
  obtain ⟨h4, h⟩ := Nat.pair_eq_pair.mp h
  obtain ⟨h5, h⟩ := Nat.pair_eq_pair.mp h
  obtain ⟨h6, h⟩ := Nat.pair_eq_pair.mp h
  obtain ⟨h7, h⟩ := Nat.pair_eq_pair.mp h
  obtain ⟨h8, h9⟩ := Nat.pair_eq_pair.mp h
  cases a; cases b
  simp only [EntryContent.mk.injEq]
  exact ⟨encString_inj h1, encString_inj h2, encString_inj h3, encString_inj h4,
    encOptString_inj h5, encOptString_inj h6, encOptString_inj h7,
    encString_inj h8, encOptNat_inj h9⟩

/-- Witness for audit_chain_integrity at a concrete two-entry log with the
concrete injective digest encContent. -/
theorem audit_chain_integrity_witness :
    (Function.Injective encContent ∧ ReachableL encContent 10 c3log ∧
      DiffersInOneField (c3log.entries.get ⟨0, c3len⟩) c3tampered) ∧
    Logger.verify_chain_integrity encContent c3log = true ∧
    Logger.verify_chain_integrity encContent
      { c3log with entries := c3log.entries.set 0 c3tampered } = false := by
  have hreach : ReachableL encContent 10 c3log :=
    ReachableL.step _ _ (ReachableL.step _ _ ReachableL.init)
  have hd : DiffersInOneField (c3log.entries.get ⟨0, c3len⟩) c3tampered := by
    right; right; right; left
    refine ⟨"mallory", rfl, ?_⟩
    decide
  have h := audit_chain_integrity ℕ encContent encContent_inj 10 c3log hreach
  exact ⟨⟨encContent_inj, hreach, hd⟩, h.1, h.2 0 c3tampered c3len hd⟩

end Audit

namespace Deid

theorem suppressRow_cons (q : String) (rest : List String) (r : Row) :
    suppressRow (q :: rest) r =
      suppressRow rest (if alistHas r q = true then alistReplace r q suppressed else r) :=
  rfl

theorem genRow_cons (rules : List (String × (PyVal → PyVal))) (q : String)
    (rest : List String) (r : Row) :
    genRow rules (q :: rest) r =
      genRow rules rest
        (match alistGet rules q with
         | none => r
         | some f =>
             if alistHas r q = true then
               alistReplace r q (f ((alistGet r q).getD .vNone))
             else r) :=
  rfl

theorem applyGenRules_cons (rules : List (String × (PyVal → PyVal))) (q : String)
    (rest : List String) (rows : List Row) :
    applyGenRules rules (q :: rest) rows =
      applyGenRules rules rest
        (match alistGet rules q with
         | none => rows
         | some f =>
             rows.map (fun r =>
               if alistHas r q = true then
                 alistReplace r q (f ((alistGet r q).getD .vNone))
               else r)) :=
  rfl

theorem alistHas_true_iff {κ α : Type} [DecidableEq κ] {l : List (κ × α)} {k : κ} :
    alistHas l k = true ↔ k ∈ l.map Prod.fst := by
  induction l with
  | nil => simp [alistHas]
  | cons p t ih =>
    simp only [alistHas, Bool.or_eq_true, decide_eq_true_eq, List.map_cons,
      List.mem_cons, ih]
    constructor
    · rintro (h | h)
      · exact Or.inl h.symm
      · exact Or.inr h
    · rintro (h | h)
      · exact Or.inl h.symm
      · exact Or.inr h

theorem map_fst_alistReplace {κ α : Type} [DecidableEq κ] (l : List (κ × α))
    (k : κ) (v : α) : (alistReplace l k v).map Prod.fst = l.map Prod.fst := by
  induction l with
  | nil => rfl
  | cons p t ih =>
    by_cases hp : p.1 = k <;> simp [alistReplace, hp, ih]

theorem alistHas_replace {κ α : Type} [DecidableEq κ] (l : List (κ × α))
    (k k2 : κ) (v : α) : alistHas (alistReplace l k v) k2 = alistHas l k2 := by
  rw [Bool.eq_iff_iff, alistHas_true_iff, alistHas_true_iff, map_fst_alistReplace]

theorem alistHas_of_get_some {κ α : Type} [DecidableEq κ] {l : List (κ × α)}
    {k : κ} {v : α} (h : alistGet l k = some v) : alistHas l k = true := by
  induction l with
  | nil => simp [alistGet] at h
  | cons p t ih =>
    by_cases hp : p.1 = k
    · simp [alistHas, hp]
    · simp only [alistGet, if_neg hp] at h
      simp [alistHas, hp, ih h]

theorem alistGet_of_mem_nodup {κ α : Type} [DecidableEq κ] {l : List (κ × α)}
    (hnd : (l.map Prod.fst).Nodup) {p : κ × α} (hp : p ∈ l) :
    alistGet l p.1 = some p.2 := by
  induction l with
  | nil => cases hp
  | cons q t ih =>
    rw [List.map_cons] at hnd
    rcases List.mem_cons.mp hp with h | h
    · rw [h]
      simp [alistGet]
    · by_cases hq : q.1 = p.1
      · exfalso
        have h2 : p.1 ∈ t.map Prod.fst := List.mem_map_of_mem Prod.fst h
        have h3 := (List.nodup_cons.mp hnd).1
        rw [hq] at h3
        exact h3 h2
      · simp only [alistGet, if_neg hq]
        exact ih (List.nodup_cons.mp hnd).2 h

theorem suppressRow_get_pres {qis : List String} {r : Row} {qi : String}
    (hval : alistGet r qi = some suppressed) :
    alistGet (suppressRow qis r) qi = some suppressed := by
  induction qis generalizing r with
  | nil => exact hval
  | cons q rest ih =>
    rw [suppressRow_cons]
    apply ih
    by_cases hq : q = qi
    · subst hq
      rw [if_pos (alistHas_of_get_some hval)]
      exact alistGet_replace_self r q suppressed (alistHas_of_get_some hval)
    · split
      · rw [alistGet_replace_ne r q qi suppressed (fun h2 => hq h2.symm)]
        exact hval
      · exact hval

theorem suppressRow_get_of_has (qis : List String) (r : Row) (qi : String)
    (hqi : qi ∈ qis) (hh : alistHas r qi = true) :
    alistGet (suppressRow qis r) qi = some suppressed := by
  induction qis generalizing r with
  | nil => cases hqi
  | cons q rest ih =>
    rw [suppressRow_cons]
    by_cases hq : q = qi
    · subst hq
      rw [if_pos hh]
      exact suppressRow_get_pres (alistGet_replace_self r q suppressed hh)
    · rcases List.mem_cons.mp hqi with h | h
      · exact absurd h.symm hq
      · split
        · exact ih _ h (by rw [alistHas_replace]; exact hh)
        · exact ih _ h hh

theorem suppressRow_get_of_not_mem (qis : List String) (r : Row) (key : String)
    (hk : key ∉ qis) : alistGet (suppressRow qis r) key = alistGet r key := by
  induction qis generalizing r with
  | nil => rfl
  | cons q rest ih =>
    rw [suppressRow_cons]
    have hne : key ≠ q := fun h => hk (h ▸ List.mem_cons_self q rest)
    have hrest : key ∉ rest := fun h => hk (List.mem_cons_of_mem q h)
    rw [ih _ hrest]
    split
    · exact alistGet_replace_ne r q key suppressed hne
    · rfl

theorem map_fst_suppressRow (qis : List String) (r : Row) :
    (suppressRow qis r).map Prod.fst = r.map Prod.fst := by
  induction qis generalizing r with
  | nil => rfl
  | cons q rest ih =>
    rw [suppressRow_cons, ih]
    split
    · exact map_fst_alistReplace r q suppressed
    · rfl

theorem alistHas_suppressRow (qis : List String) (r : Row) (key : String) :
    alistHas (suppressRow qis r) key = alistHas r key := by
  rw [Bool.eq_iff_iff, alistHas_true_iff, alistHas_true_iff, map_fst_suppressRow]

theorem genRow_get_of_not_mem (rules : List (String × (PyVal → PyVal)))
    (qis : List String) (r : Row) (key : String) (hk : key ∉ qis) :
    alistGet (genRow rules qis r) key = alistGet r key := by
  induction qis generalizing r with
  | nil => rfl
  | cons q rest ih =>
    rw [genRow_cons]
    have hne : key ≠ q := fun h => hk (h ▸ List.mem_cons_self q rest)
    have hrest : key ∉ rest := fun h => hk (List.mem_cons_of_mem q h)
    rcases hq : alistGet rules q with _ | f <;> simp only [hq]
    · exact ih _ hrest
    · rw [ih _ hrest]
      split
      · exact alistGet_replace_ne r q key _ hne
      · rfl

theorem map_fst_genRow (rules : List (String × (PyVal → PyVal)))
    (qis : List String) (r : Row) :
    (genRow rules qis r).map Prod.fst = r.map Prod.fst := by
  induction qis generalizing r with
  | nil => rfl
  | cons q rest ih =>
    rw [genRow_cons]
    rcases hq : alistGet rules q with _ | f <;> simp only [hq]
    · exact ih r
    · rw [ih _]
      split
      · exact map_fst_alistReplace r q _
      · rfl

theorem alistHas_genRow (rules : List (String × (PyVal → PyVal)))
    (qis : List String) (r : Row) (key : String) :
    alistHas (genRow rules qis r) key = alistHas r key := by
  rw [Bool.eq_iff_iff, alistHas_true_iff, alistHas_true_iff, map_fst_genRow]

theorem applyGenRules_eq_map (rules : List (String × (PyVal → PyVal)))
    (qis : List String) (rows : List Row) :
    applyGenRules rules qis rows = rows.map (genRow rules qis) := by
  induction qis generalizing rows with
  | nil =>
    show rows = rows.map (fun r => r)
    simp
  | cons q rest ih =>
    rw [applyGenRules_cons]
    rcases hq : alistGet rules q with _ | f
    · simp only [hq]
      rw [ih rows]
      apply List.map_congr_left
      intro r hr
      rw [genRow_cons]
      simp only [hq]
    · simp only [hq]
      rw [ih _, List.map_map]
      apply List.map_congr_left
      intro r hr
      rw [genRow_cons]
      simp only [hq]
      rfl

theorem computeEquivalenceClasses_eq_fold (data : List Row) (qis : List String) :
    computeEquivalenceClasses data qis = data.enum.foldl (classPush qis) [] :=
  rfl

theorem classPush_lookup (qis : List String) (classes : List (List PyVal × List ℕ))
    (p : ℕ × Row) (key : List PyVal) :
    (alistGet (classPush qis classes p) key).getD [] =
      (alistGet classes key).getD [] ++
        (if equivalenceKey qis p.2 = key then [p.1] else []) := by
  unfold classPush
  by_cases hk : equivalenceKey qis p.2 = key
  · rw [if_pos hk, hk, alistGet_set_self]
    rfl
  · rw [if_neg hk, alistGet_set_ne _ _ _ _ (fun h => hk h.symm), List.append_nil]

theorem foldPush_lookup (qis : List String) (pairs : List (ℕ × Row))
    (d : List (List PyVal × List ℕ)) (key : List PyVal) :
    (alistGet (pairs.foldl (classPush qis) d) key).getD [] =
      (alistGet d key).getD [] ++
        (pairs.filter (fun p => decide (equivalenceKey qis p.2 = key))).map Prod.fst := by
  induction pairs generalizing d with
  | nil => simp
  | cons q rest ih =>
    rw [List.foldl_cons, ih, classPush_lookup]
    by_cases hk : equivalenceKey qis q.2 = key
    · rw [if_pos hk]
      rw [show (q :: rest).filter (fun p => decide (equivalenceKey qis p.2 = key)) =
          q :: rest.filter (fun p => decide (equivalenceKey qis p.2 = key)) from by
        simp [List.filter_cons, hk]]
      simp
    · rw [if_neg hk]
      rw [show (q :: rest).filter (fun p => decide (equivalenceKey qis p.2 = key)) =
          rest.filter (fun p => decide (equivalenceKey qis p.2 = key)) from by
        simp [List.filter_cons, hk]]
      simp

theorem foldPush_nodup (qis : List String) (pairs : List (ℕ × Row))
    (d : List (List PyVal × List ℕ)) (hd : (d.map Prod.fst).Nodup) :
    ((pairs.foldl (classPush qis) d).map Prod.fst).Nodup := by
  induction pairs generalizing d with
  | nil => exact hd
  | cons q rest ih =>
    rw [List.foldl_cons]
    apply ih
    unfold classPush alistSet
    split
    · rw [map_fst_alistReplace]
      exact hd
    · rename_i hhas
      rw [List.map_append]
      rw [List.nodup_append]
      refine ⟨hd, List.nodup_singleton _, ?_⟩
      intro a ha hb
      simp at hb
      rw [hb] at ha
      exact absurd (alistHas_true_iff.mpr ha) (by simpa using hhas)

theorem foldPush_mem_origin (qis : List String) (pairs : List (ℕ × Row))
    (d : List (List PyVal × List ℕ)) {c : List PyVal × List ℕ}
    (hc : c ∈ pairs.foldl (classPush qis) d) :
    c ∈ d ∨ ∃ p ∈ pairs, equivalenceKey qis p.2 = c.1 := by
  induction pairs generalizing d with
  | nil => exact Or.inl hc
  | cons q rest ih =>
    rw [List.foldl_cons] at hc
    rcases ih _ hc with h | h
    · unfold classPush at h
      rcases mem_alistSet h with h2 | h2
      · exact Or.inl h2
      · right
        exact ⟨q, List.mem_cons_self q rest, by rw [h2]⟩
    · right
      rcases h with ⟨p, hp, hkey⟩
      exact ⟨p, List.mem_cons_of_mem q hp, hkey⟩

theorem enumFrom_filter_length (Q : Row → Bool) :
    ∀ (n : ℕ) (data : List Row),
      ((List.enumFrom n data).filter (fun p => Q p.2)).length =
        (data.filter Q).length := by
  intro n data
  induction data generalizing n with
  | nil => rfl
  | cons r rest ih =>
    rw [List.enumFrom_cons]
    by_cases hq : Q r = true
    · rw [List.filter_cons_of_pos (by simpa using hq), List.filter_cons_of_pos hq]
      simp [ih]
    · rw [List.filter_cons_of_neg (by simpa using hq), List.filter_cons_of_neg hq]
      exact ih _

theorem snd_mem_of_mem_enumFrom {p : ℕ × Row} :
    ∀ {n : ℕ} {data : List Row}, p ∈ List.enumFrom n data → p.2 ∈ data := by
  intro n data
  induction data generalizing n with
  | nil => intro h; cases h
  | cons r rest ih =>
    intro h
    rw [List.enumFrom_cons] at h
    rcases List.mem_cons.mp h with h2 | h2
    · rw [h2]
      exact List.mem_cons_self r rest
    · exact List.mem_cons_of_mem r (ih h2)

theorem classes_lookup_length (data : List Row) (qis : List String)
    (key : List PyVal) :
    ((alistGet (computeEquivalenceClasses data qis) key).getD []).length =
      data.countP (fun r => decide (equivalenceKey qis r = key)) := by
  rw [computeEquivalenceClasses_eq_fold, foldPush_lookup]
  show ((List.map Prod.fst _).length) = _
  rw [List.length_map, List.enum,
    enumFrom_filter_length (fun r => decide (equivalenceKey qis r = key)) 0 data,
    List.countP_eq_length_filter]

theorem classes_lookup_some (data : List Row) (qis : List String) {r : Row}
    (hr : r ∈ data) :
    ∃ v, alistGet (computeEquivalenceClasses data qis) (equivalenceKey qis r) = some v ∧
      v.length = data.countP (fun r2 => decide (equivalenceKey qis r2 = equivalenceKey qis r)) := by
  have hlen := classes_lookup_length data qis (equivalenceKey qis r)
  rcases halist : alistGet (computeEquivalenceClasses data qis) (equivalenceKey qis r) with _ | v
  · exfalso
    rw [halist] at hlen
    have hpos : 0 < data.countP (fun r2 => decide (equivalenceKey qis r2 = equivalenceKey qis r)) :=
      List.countP_pos_iff.mpr ⟨r, hr, by simp⟩
    simp at hlen
    omega
  · rw [halist] at hlen
    exact ⟨v, rfl, hlen⟩

theorem mem_smallKeys_iff (data : List Row) (qis : List String) (k : ℕ) {r : Row}
    (hr : r ∈ data) :
    (equivalenceKey qis r ∈
        ((computeEquivalenceClasses data qis).filter
          (fun c => decide (c.2.length < k))).map (fun c => c.1)) ↔
      data.countP (fun r2 => decide (equivalenceKey qis r2 = equivalenceKey qis r)) < k := by
  constructor
  · intro h
    rcases List.mem_map.mp h with ⟨c, hcf, hc1⟩
    have hcc := List.mem_filter.mp hcf
    have hnd : ((computeEquivalenceClasses data qis).map Prod.fst).Nodup := by
      rw [computeEquivalenceClasses_eq_fold]
      exact foldPush_nodup qis data.enum [] (by simp)
    have hget := alistGet_of_mem_nodup hnd hcc.1
    rw [hc1] at hget
    have hlen := classes_lookup_length data qis (equivalenceKey qis r)
    rw [hget] at hlen
    have h2 : c.2.length < k := by simpa using hcc.2
    simp at hlen
    omega
  · intro h
    rcases classes_lookup_some data qis hr with ⟨v, hget, hvlen⟩
    apply List.mem_map.mpr
    refine ⟨(equivalenceKey qis r, v), ?_, rfl⟩
    apply List.mem_filter.mpr
    refine ⟨alistGet_mem hget, ?_⟩
    simp
    omega

theorem anonymize_eq (k : ℕ) (data : List Row) (qis : List String)
    (rules : List (String × (PyVal → PyVal))) (hne : ¬ data = []) :
    anonymize k data qis rules =
      (data.map (genRow rules qis)).map
        (fun r =>
          if equivalenceKey qis r ∈
              ((computeEquivalenceClasses (data.map (genRow rules qis)) qis).filter
                (fun c => decide (c.2.length < k))).map (fun c => c.1)
          then suppressRow qis r else r) := by
  unfold anonymize
  rw [if_neg hne]
  simp only [applyGenRules_eq_map]
  rw [show data.map (fun r => r) = data from by simp]

/-- C10: anonymize returns exactly one output row per input row, in
order, and leaves every attribute that is not a listed quasi-identifier
untouched — both its presence and its value; the Python implementation
works on copies of the rows, which the value semantics of the embedding
renders as purity. -/
theorem anonymize_frame (k : ℕ) (data : List Row) (qis : List String)
    (rules : List (String × (PyVal → PyVal))) :
    (anonymize k data qis rules).length = data.length ∧
    ∀ (i : ℕ) (hi : i < data.length) (h2 : i < (anonymize k data qis rules).length),
      (∀ key, key ∉ qis →
        alistGet ((anonymize k data qis rules).get ⟨i, h2⟩) key =
          alistGet (data.get ⟨i, hi⟩) key) ∧
      ∀ key, alistHas ((anonymize k data qis rules).get ⟨i, h2⟩) key =
        alistHas (data.get ⟨i, hi⟩) key := by
  by_cases hne : data = []
  · subst hne
    refine ⟨rfl, ?_⟩
    intro i hi h2
    simp at hi
  · rw [anonymize_eq k data qis rules hne]
    constructor
    · simp
    · intro i hi h2
      have hgl : i < (data.map (genRow rules qis)).length := by simpa using hi
      constructor
      · intro key hk
        simp only [List.get_eq_getElem, List.getElem_map]
        split
        · rw [suppressRow_get_of_not_mem qis _ key hk,
            genRow_get_of_not_mem rules qis _ key hk]
        · rw [genRow_get_of_not_mem rules qis _ key hk]
      · intro key
        simp only [List.get_eq_getElem, List.getElem_map]
        split
        · rw [alistHas_suppressRow, alistHas_genRow]
        · rw [alistHas_genRow]

/-- C4: in the output of anonymize every row either shares its
quasi-identifier values with at least k rows of the output (itself
included, so with at least k-1 other rows), or has every present
quasi-identifier replaced by the sentinel; and check_k_anonymity holds iff
every equivalence class of the input has at least k rows. -/
theorem k_anonymity_guarantee (k : ℕ) (data : List Row) (qis : List String)
    (rules : List (String × (PyVal → PyVal))) (hk : 1 ≤ k) :
    (∀ (i : ℕ) (hi : i < (anonymize k data qis rules).length),
      k ≤ (anonymize k data qis rules).countP
          (fun r2 => decide (equivalenceKey qis r2 =
            equivalenceKey qis ((anonymize k data qis rules).get ⟨i, hi⟩))) ∨
      ∀ qi ∈ qis, alistHas ((anonymize k data qis rules).get ⟨i, hi⟩) qi = true →
        alistGet ((anonymize k data qis rules).get ⟨i, hi⟩) qi = some suppressed) ∧
    (check_k_anonymity k data qis = true ↔
      ∀ r ∈ data, k ≤ data.countP
        (fun r2 => decide (equivalenceKey qis r2 = equivalenceKey qis r))) := by
  constructor
  · by_cases hne : data = []
    · subst hne
      intro i hi
      exfalso
      simp [anonymize] at hi
    · rw [anonymize_eq k data qis rules hne]
      intro i hi
      have hgl : i < (data.map (genRow rules qis)).length := by simpa using hi
      have hgmem : (data.map (genRow rules qis)).get ⟨i, hgl⟩ ∈
          data.map (genRow rules qis) := (data.map (genRow rules qis)).get_mem i hgl
      by_cases hsmall : (data.map (genRow rules qis)).countP
          (fun r2 => decide (equivalenceKey qis r2 =
            equivalenceKey qis ((data.map (genRow rules qis)).get ⟨i, hgl⟩))) < k
      · right
        have hcond := (mem_smallKeys_iff (data.map (genRow rules qis)) qis k hgmem).mpr hsmall
        simp only [List.get_eq_getElem, List.getElem_map] at hcond ⊢
        intro qi hqi hhas
        rw [if_pos hcond] at hhas ⊢
        rw [alistHas_suppressRow] at hhas
        exact suppressRow_get_of_has qis _ qi hqi hhas
      · left
        have hcond : ¬ (equivalenceKey qis ((data.map (genRow rules qis)).get ⟨i, hgl⟩) ∈
            ((computeEquivalenceClasses (data.map (genRow rules qis)) qis).filter
              (fun c => decide (c.2.length < k))).map (fun c => c.1)) :=
          fun hm => hsmall ((mem_smallKeys_iff (data.map (genRow rules qis)) qis k hgmem).mp hm)
        simp only [List.get_eq_getElem, List.getElem_map] at hcond hsmall ⊢
        rw [if_neg hcond]
        rw [List.countP_map]
        refine le_trans (not_lt.mp hsmall) (List.countP_mono_left ?_)
        intro r2 hr2 hp
        have hkey := of_decide_eq_true hp
        have hcond2 : ¬ (equivalenceKey qis r2 ∈
            ((computeEquivalenceClasses (data.map (genRow rules qis)) qis).filter
              (fun c => decide (c.2.length < k))).map (fun c => c.1)) := by
          rw [hkey]; exact hcond
        simp only [Function.comp]
        apply decide_eq_true
        rw [if_neg hcond2]
        exact hkey
  · constructor
    · intro h r hr
      rcases classes_lookup_some data qis hr with ⟨v, hget, hvlen⟩
      have hmem := alistGet_mem hget
      have h2 := List.all_eq_true.mp h _ hmem
      rw [← hvlen]
      simpa using h2
    · intro h
      apply List.all_eq_true.mpr
      intro c hc
      rcases foldPush_mem_origin qis data.enum [] (by
          rw [← computeEquivalenceClasses_eq_fold]; exact hc) with h2 | h2
      · cases h2
      · rcases h2 with ⟨p, hp, hkey⟩
        have hr : p.2 ∈ data := snd_mem_of_mem_enumFrom hp
        have hnd : ((computeEquivalenceClasses data qis).map Prod.fst).Nodup := by
          rw [computeEquivalenceClasses_eq_fold]
          exact foldPush_nodup qis data.enum [] (by simp)
        have hget := alistGet_of_mem_nodup hnd hc
        have hlen := classes_lookup_length data qis c.1
        rw [hget] at hlen
        simp only [Option.getD_some] at hlen
        have hcount := h p.2 hr
        rw [show equivalenceKey qis p.2 = c.1 from hkey] at hcount
        simp only [decide_eq_true_eq]
        omega

theorem c4len0 : 0 < (anonymize 2 c4data c4qis []).length := by decide

theorem c4len2 : 2 < (anonymize 2 c4data c4qis []).length := by decide

/-- Witness for k_anonymity_guarantee at k = 2 on three concrete rows:
row 0 sits in an equivalence class of size 2, row 2 is in a singleton
class and comes out suppressed, and check_k_anonymity reports false. -/
theorem k_anonymity_guarantee_witness :
    1 ≤ 2 ∧
    2 ≤ (anonymize 2 c4data c4qis []).countP
        (fun r2 => decide (equivalenceKey c4qis r2 =
          equivalenceKey c4qis ((anonymize 2 c4data c4qis []).get ⟨0, c4len0⟩))) ∧
    alistGet ((anonymize 2 c4data c4qis []).get ⟨2, c4len2⟩) "age" =
      some suppressed ∧
    check_k_anonymity 2 c4data c4qis = false := by
  have h := k_anonymity_guarantee 2 c4data c4qis [] (by decide)
  refine ⟨by decide, ?_, ?_, ?_⟩
  · exact (h.1 0 c4len0).resolve_right (by decide)
  · exact ((h.1 2 c4len2).resolve_left (by decide)) "age" (by decide) (by decide)
  · have h2 := h.2
    revert h2
    decide

theorem c10dlen : 2 < c4data.length := by decide

theorem c10len : 2 < (anonymize 2 c4data c4qis []).length := by decide

/-- Witness for anonymize_frame on the concrete rows: the output has one
row per input row and the non-quasi-identifier column "name" of row 2 is
untouched even though that row is suppressed. -/
theorem anonymize_frame_witness :
    (anonymize 2 c4data c4qis []).length = c4data.length ∧
    "name" ∉ c4qis ∧
    alistGet ((anonymize 2 c4data c4qis []).get ⟨2, c10len⟩) "name" =
      alistGet (c4data.get ⟨2, c10dlen⟩) "name" ∧
    alistHas ((anonymize 2 c4data c4qis []).get ⟨2, c10len⟩) "name" =
      alistHas (c4data.get ⟨2, c10dlen⟩) "name" := by
  have h := anonymize_frame 2 c4data c4qis []
  exact ⟨h.1, by decide, (h.2 2 c10dlen c10len).1 "name" (by decide),
    (h.2 2 c10dlen c10len).2 "name"⟩

end Deid

namespace Policy

theorem mem_foldPySet (l acc : List String) (a : String) :
    a ∈ l.foldl (fun acc x => if x ∈ acc then acc else acc ++ [x]) acc ↔
      a ∈ acc ∨ a ∈ l := by
  induction l generalizing acc with
  | nil => simp
  | cons x xs ih =>
      simp only [List.foldl_cons]
      by_cases hx : x ∈ acc
      · rw [if_pos hx, ih]
        constructor
        · rintro (h | h)
          · exact Or.inl h
          · exact Or.inr (List.mem_cons_of_mem _ h)
        · rintro (h | h)
          · exact Or.inl h
          · rcases List.mem_cons.mp h with h | h
            · rw [h]; exact Or.inl hx
            · exact Or.inr h
      · rw [if_neg hx, ih]
        simp only [List.mem_append, List.mem_singleton, List.mem_cons]
        tauto

theorem mem_pySetList (l : List String) (a : String) :
    a ∈ pySetList l ↔ a ∈ l := by
  rw [pySetList, mem_foldPySet]
  simp

/-- C7 counterexample: a selected column that lies in the supplied role's
denied_columns but not in the sensitive-columns set does not trigger DeID:
evaluate returns PASS, because only _has_sensitive_columns guards the
DeID rule and denied_columns are consulted merely to extend the masked
column list once DeID has already fired. -/
theorem deid_denied_columns_counterexample :
    c7ar.is_valid = true ∧ c7ar.is_aggregate_query = false ∧
    ((PolicyEngine.new c7cfg).roleConfigOf (some "intern")).map
      (fun rc => rc.denied_columns) = some ["salary"] ∧
    c7ar.select_columns.contains "salary" = true ∧
    ((PolicyEngine.new c7cfg).evaluate c7ar (some "intern")).action = "PASS" := by
  refine ⟨rfl, rfl, rfl, by decide, by decide⟩

theorem contains_iff_mem (l : List String) (x : String) :
    l.contains x = true ↔ x ∈ l := List.elem_iff

/-- C7 (amended): for a valid, non-aggregate analysis result that matches
no configured column pattern and passes any role table-access check, the
decision is DeID exactly when some selected column, lowercased, is in the
engine's sensitive-column list — a column that is only in the role's
denied_columns does not trigger DeID on its own; when DeID is returned
the method is "hash" and the masked columns are exactly the selected
columns matched as sensitive, together with the denied-matched ones when
the role is present with a non-empty denied list. -/
theorem deid_trigger_amended (e : PolicyEngine) (ar : AnalysisResult)
    (role : Option String)
    (hvalid : ar.is_valid = true)
    (hagg : ar.is_aggregate_query = false)
    (haggs : ar.aggregations = [])
    (hpat : e.config.checkColumnPatterns ar = none)
    (htbl : ∀ rc, e.roleConfigOf role = some rc → checkTableAccess ar rc = none) :
    ((e.evaluate ar role).action = "DeID" ↔
      ∃ c ∈ ar.select_columns, pyLower c ∈ e.sensitive_columns) ∧
    ((e.evaluate ar role).action = "DeID" →
      (e.evaluate ar role).params.method = some "hash" ∧
      ∀ c, c ∈ (e.evaluate ar role).params.columns.getD [] ↔
        c ∈ ar.select_columns ∧
          (pyLower c ∈ e.sensitive_columns ∨
           ∃ rc, e.roleConfigOf role = some rc ∧ ¬ rc.denied_columns = [] ∧
             pyLower c ∈ rc.denied_columns.map pyLower)) := by
  have hsens : e.hasSensitiveColumns ar = true ↔
      ∃ c ∈ ar.select_columns, pyLower c ∈ e.sensitive_columns := by
    simp only [PolicyEngine.hasSensitiveColumns, List.any_eq_true,
      contains_iff_mem]
  rcases hrc : e.roleConfigOf role with _ | rc
  · have heval : e.evaluate ar role =
        (if e.hasSensitiveColumns ar then
          { e.createDeidDecision ar none with
              classification := some (e.config.highestClassification ar)
              role_applied := role }
         else
          { action := "PASS"
            reason := "No privacy protection required"
            classification := some (e.config.highestClassification ar)
            role_applied := role }) := by
      simp [PolicyEngine.evaluate, hvalid, hrc, hpat, hagg, haggs]
    rw [heval]
    by_cases hs : e.hasSensitiveColumns ar
    · rw [if_pos hs]
      refine ⟨⟨fun _ => hsens.mp hs, fun _ => rfl⟩, fun _ => ⟨rfl, ?_⟩⟩
      intro c
      simp only [PolicyEngine.createDeidDecision, Option.getD_some,
        List.mem_filter, contains_iff_mem]
      constructor
      · rintro ⟨h1, h2⟩
        exact ⟨h1, Or.inl h2⟩
      · rintro ⟨h1, h2 | ⟨rc2, hrc2, _⟩⟩
        · exact ⟨h1, h2⟩
        · cases hrc2
    · rw [if_neg hs]
      have hna : ¬ ∃ c ∈ ar.select_columns, pyLower c ∈ e.sensitive_columns :=
        fun h2 => hs (hsens.mpr h2)
      refine ⟨⟨fun h2 => absurd (show ("PASS" : String) = "DeID" from h2) (by decide),
        fun h2 => absurd h2 hna⟩,
        fun h2 => absurd (show ("PASS" : String) = "DeID" from h2) (by decide)⟩
  · have htbl2 := htbl rc hrc
    have heval : e.evaluate ar role =
        (if e.hasSensitiveColumns ar then
          { e.createDeidDecision ar (some rc) with
              classification := some (e.config.highestClassification ar)
              role_applied := role }
         else
          { action := "PASS"
            reason := "No privacy protection required"
            classification := some (e.config.highestClassification ar)
            role_applied := role }) := by
      simp [PolicyEngine.evaluate, hvalid, hrc, htbl2, hpat, hagg, haggs]
    rw [heval]
    by_cases hs : e.hasSensitiveColumns ar
    · rw [if_pos hs]
      refine ⟨⟨fun _ => hsens.mp hs, fun _ => rfl⟩, fun _ => ⟨rfl, ?_⟩⟩
      intro c
      by_cases hden : rc.denied_columns = []
      · simp only [PolicyEngine.createDeidDecision, if_pos hden,
          Option.getD_some, List.mem_filter, contains_iff_mem]
        constructor
        · rintro ⟨h1, h2⟩
          exact ⟨h1, Or.inl h2⟩
        · rintro ⟨h1, h2 | ⟨rc2, hrc2, hne2, _⟩⟩
          · exact ⟨h1, h2⟩
          · cases hrc2
            exact absurd hden hne2
      · simp only [PolicyEngine.createDeidDecision, if_neg hden,
          Option.getD_some, mem_pySetList, List.mem_append,
          List.mem_filter, contains_iff_mem]
        constructor
        · rintro (⟨h1, h2⟩ | ⟨h1, h2⟩)
          · exact ⟨h1, Or.inl h2⟩
          · exact ⟨h1, Or.inr ⟨rc, rfl, hden, h2⟩⟩
        · rintro ⟨h1, h2 | ⟨rc2, hrc2, _, h3⟩⟩
          · exact Or.inl ⟨h1, h2⟩
          · cases hrc2
            exact Or.inr ⟨h1, h3⟩
    · rw [if_neg hs]
      have hna : ¬ ∃ c ∈ ar.select_columns, pyLower c ∈ e.sensitive_columns :=
        fun h2 => hs (hsens.mpr h2)
      refine ⟨⟨fun h2 => absurd (show ("PASS" : String) = "DeID" from h2) (by decide),
        fun h2 => absurd h2 hna⟩,
        fun h2 => absurd (show ("PASS" : String) = "DeID" from h2) (by decide)⟩

/-- Witness for deid_trigger_amended on a concrete engine: selecting
"email" (sensitive) and "salary" (denied to the intern role) yields a
DeID decision with method "hash" masking both columns. -/
theorem deid_trigger_amended_witness :
    (c7war.is_valid = true ∧ c7war.is_aggregate_query = false ∧
     c7war.aggregations = [] ∧
     (PolicyEngine.new c7cfg).config.checkColumnPatterns c7war = none) ∧
    ((PolicyEngine.new c7cfg).evaluate c7war (some "intern")).action = "DeID" ∧
    ((PolicyEngine.new c7cfg).evaluate c7war (some "intern")).params.method =
      some "hash" ∧
    "email" ∈
      ((PolicyEngine.new c7cfg).evaluate c7war (some "intern")).params.columns.getD [] ∧
    "salary" ∈
      ((PolicyEngine.new c7cfg).evaluate c7war (some "intern")).params.columns.getD [] := by
  have h := deid_trigger_amended (PolicyEngine.new c7cfg) c7war (some "intern")
    rfl rfl rfl (by decide)
    (fun rc hrc => by
      have h2 : some c7role = some rc := hrc
      cases h2
      decide)
  have hd : ((PolicyEngine.new c7cfg).evaluate c7war (some "intern")).action =
      "DeID" :=
    h.1.mpr ⟨"email", by decide, by decide⟩
  refine ⟨⟨rfl, rfl, rfl, by decide⟩, hd, (h.2 hd).1, ?_, ?_⟩
  · exact ((h.2 hd).2 "email").mpr ⟨by decide, Or.inl (by decide)⟩
  · exact ((h.2 hd).2 "salary").mpr
      ⟨by decide, Or.inr ⟨c7role, rfl, by decide, by decide⟩⟩

end Policy

namespace Driver

open Policy

/-- C1 (code_bug): with budget management enabled, process_query runs the
budget check for EVERY policy decision, not only for DP ones — epsilon
falls back to 0.1 when the decision carries none — and a successful
response is never produced: an allowed check raises AttributeError on
context.query_id before any consumption, a refused check returns the
insufficient-budget error, and the stored manager is exactly the
post-check manager (account auto-created, nothing consumed). -/
theorem budget_checked_for_every_action (dr : QueryDriver) (now : ℚ)
    (sql : String) (ctx : QueryContext) (m : Budget.Manager)
    (he : dr.enable_budget_management = true)
    (hm : dr.budget_manager = some m) :
    (dr.process_query now sql ctx).1 =
      (if (budgetProbe dr now sql ctx m).1.allowed then
        ProcessResult.attributeError "query_id"
       else
        ProcessResult.insufficientBudget (budgetProbe dr now sql ctx m).1.message
          (budgetProbe dr now sql ctx m).1.remaining_budget
          (budgetProbe dr now sql ctx m).1.requested_budget) ∧
    (dr.process_query now sql ctx).2.budget_manager =
      some (budgetProbe dr now sql ctx m).2 ∧
    ∀ d r, (dr.process_query now sql ctx).1 ≠ ProcessResult.ok d r := by
  have hpq : dr.process_query now sql ctx =
      (if (budgetProbe dr now sql ctx m).1.allowed then
        (ProcessResult.attributeError "query_id",
         { dr with budget_manager := some (budgetProbe dr now sql ctx m).2 })
       else
        (ProcessResult.insufficientBudget (budgetProbe dr now sql ctx m).1.message
           (budgetProbe dr now sql ctx m).1.remaining_budget
           (budgetProbe dr now sql ctx m).1.requested_budget,
         { dr with budget_manager := some (budgetProbe dr now sql ctx m).2 })) := by
    simp only [QueryDriver.process_query, he, hm, budgetProbe, if_true]
  rw [hpq]
  by_cases hall : (budgetProbe dr now sql ctx m).1.allowed
  · rw [if_pos hall, if_pos hall]
    exact ⟨rfl, rfl, fun d r h => ProcessResult.noConfusion h⟩
  · rw [if_neg hall, if_neg hall]
    exact ⟨rfl, rfl, fun d r h => ProcessResult.noConfusion h⟩

/-- Witness for budget_checked_for_every_action: a PASS decision on a
budget-enabled driver still triggers the budget check (with the 0.1
fallback epsilon), which is allowed on a fresh account, and the request
then dies with AttributeError on context.query_id instead of returning
the executor's response. -/
theorem budget_checked_for_every_action_witness :
    (c1dr.enable_budget_management = true ∧ c1dr.budget_manager = some c1m ∧
     (c1dr.policy_engine.evaluate (c1dr.analyze "SELECT city FROM trips") none).action
       = "PASS") ∧
    (c1dr.process_query 0 "SELECT city FROM trips" c1ctx).1 =
      ProcessResult.attributeError "query_id" := by
  have h := budget_checked_for_every_action c1dr 0 "SELECT city FROM trips" c1ctx
    c1m rfl rfl
  have hall : (budgetProbe c1dr 0 "SELECT city FROM trips" c1ctx c1m).1.allowed
      = true := by
    norm_num +decide [budgetProbe, c1dr, c1m, c1ctx, c1engine, c1ar, userIdOf,
      Budget.Manager.init, Budget.Manager.check_budget,
      Budget.Manager.get_or_create_account, Budget.Manager.freshAccount,
      Budget.Manager.store, Budget.checkAndResetIfNeeded, Budget.period?,
      Budget.BudgetAccount.remaining_budget, Budget.defaultRoleBudgets,
      alistSet, alistHas, alistReplace, alistGet,
      PolicyEngine.evaluate, PolicyEngine.new, PolicyEngine.roleConfigOf,
      Config.checkColumnPatterns, Config.highestClassification,
      PolicyEngine.hasSensitiveColumns, defaultConfig, pyLower]
  refine ⟨⟨rfl, rfl, by decide⟩, ?_⟩
  rw [h.1, hall]
  rfl

/-- C5 (code_bug): process_query computes the policy decision without the
context's user_role, so the S4 scenario — role intern with
denied_tables=[salaries] issuing SELECT AVG(x) FROM salaries — is not
rejected.  Had the role been passed, evaluate would return REJECT with
reason naming the denied table and the executor would answer with the
type=ERROR response carrying it; instead the decision handed to the
executor is a plain DP decision. -/
theorem role_not_passed_to_policy :
    ((PolicyEngine.new s4cfg).evaluate s4ar (some "intern")).action = "REJECT" ∧
    ((PolicyEngine.new s4cfg).evaluate s4ar (some "intern")).reason =
      "Access denied to table: salaries" ∧
    (∀ b sql, executorExecute b sql s4ar
        ((PolicyEngine.new s4cfg).evaluate s4ar (some "intern")) =
      ExecOutcome.errorResp "Access denied to table: salaries") ∧
    s4ctx.user_role = some "intern" ∧
    (s4dr.process_query 0 "SELECT AVG(x) FROM salaries" s4ctx).1 =
      ProcessResult.ok ((PolicyEngine.new s4cfg).evaluate s4ar none)
        (executorExecute s4dr.backend "SELECT AVG(x) FROM salaries" s4ar
          ((PolicyEngine.new s4cfg).evaluate s4ar none)) ∧
    ((PolicyEngine.new s4cfg).evaluate s4ar none).action = "DP" := by
  have ha : ((PolicyEngine.new s4cfg).evaluate s4ar (some "intern")).action =
      "REJECT" := by decide
  have hr : ((PolicyEngine.new s4cfg).evaluate s4ar (some "intern")).reason =
      "Access denied to table: salaries" := by decide
  refine ⟨ha, hr, ?_, rfl, rfl, by decide⟩
  intro b sql
  simp only [executorExecute, ha, hr]
  rfl

/-- C8 (code_bug): _calculate_multi_table_sensitivity itself implements
the claimed formula, but the driver computes it only when joins are
present (`if analysis_result.joins:`), so a no-join query with subqueries
or window functions never computes it — contradicting the claim's
"including for queries that have subqueries or window functions but no
joins" — and when joins are present the store into context.metadata
raises AttributeError (QueryContext has no metadata attribute), so the
sensitivity is never recorded for any query. -/
theorem multi_table_sensitivity_diverges (dr : QueryDriver) (now : ℚ)
    (sql : String) (ctx : QueryContext)
    (hb : dr.enable_budget_management = false)
    (hj : ¬ (dr.analyze sql).joins = []) :
    (dr.process_query now sql ctx).1 = ProcessResult.attributeError "metadata" ∧
    (∀ sql2, (dr.analyze sql2).joins = [] →
      (dr.process_query now sql2 ctx).1 =
        ProcessResult.ok (dr.policy_engine.evaluate (dr.analyze sql2) none)
          (executorExecute dr.backend sql2 (dr.analyze sql2)
            (dr.policy_engine.evaluate (dr.analyze sql2) none))) ∧
    calcMultiTableSensitivity c8ar = 432 / 125 ∧
    calcMultiTableSensitivity c8arSub = 13 / 10 := by
  refine ⟨?_, ?_, ?_, ?_⟩
  · simp [QueryDriver.process_query, hb, hj]
  · intro sql2 hj2
    simp [QueryDriver.process_query, hb, hj2]
  · norm_num +decide [calcMultiTableSensitivity, c8ar]
  · norm_num +decide [calcMultiTableSensitivity, c8arSub]

/-- Witness for multi_table_sensitivity_diverges on the concrete driver:
the join query dies with AttributeError on context.metadata, the
subquery-only query completes with no sensitivity ever computed. -/
theorem multi_table_sensitivity_diverges_witness :
    (c8dr.enable_budget_management = false ∧ ¬ (c8dr.analyze "J").joins = []) ∧
    (c8dr.process_query 0 "J" c8ctx).1 = ProcessResult.attributeError "metadata" ∧
    (c8dr.process_query 0 "S" c8ctx).1 =
      ProcessResult.ok (c8dr.policy_engine.evaluate c8arSub none)
        (executorExecute c8dr.backend "S" c8arSub
          (c8dr.policy_engine.evaluate c8arSub none)) := by
  have h := multi_table_sensitivity_diverges c8dr 0 "J" c8ctx rfl (by decide)
  exact ⟨⟨rfl, by decide⟩, h.1, h.2.1 "S" (by decide)⟩

end Driver

end PQE
